import Mathlib

/-!
Verification of the permission-resolution subsystem of the backend-bgestion
repository (Express/PostgreSQL). The data model below is a shallow embedding
of the tables created in src/database/migrate.js; the operations are shallow
embeddings of the route handlers in the permission routes file and
member.routes.js, and of the middleware functions checkPermission and
checkBoardAccess in the auth middleware.

Tables are lists of rows; SQL queries become list filters/binds following the
exact WHERE/JOIN conditions of the source; `rows[0]` becomes `List.head?`.
Ids, role names, permission codes and levels are strings, as in the source.
-/

namespace BGestion

/-- Row of workspaces: id plus owner_id (the columns the claims need). -/
structure Workspace where
  id : String
  ownerId : String
deriving DecidableEq, Repr

/-- Row of workspace_members: UNIQUE(workspace_id, user_id), role is a string
with default 'member'. -/
structure Membership where
  workspaceId : String
  userId : String
  role : String
deriving DecidableEq, Repr

/-- Row of permissions: the statically seeded catalog; code is UNIQUE. -/
structure PermissionRow where
  id : String
  code : String
deriving DecidableEq, Repr

/-- Row of workspace_roles: UNIQUE(workspace_id, name). -/
structure WorkspaceRole where
  id : String
  workspaceId : String
  name : String
deriving DecidableEq, Repr

/-- Row of role_permissions: UNIQUE(role_id, permission_id), ON DELETE CASCADE
from workspace_roles. -/
structure RolePermission where
  roleId : String
  permissionId : String
deriving DecidableEq, Repr

/-- Row of user_roles: UNIQUE(user_id, workspace_id, role_id), ON DELETE
CASCADE from workspace_roles. -/
structure UserRole where
  userId : String
  workspaceId : String
  roleId : String
deriving DecidableEq, Repr

/-- Row of boards: id and owning workspace. -/
structure Board where
  id : String
  workspaceId : String
deriving DecidableEq, Repr

/-- Row of board_permissions: UNIQUE(board_id, user_id), level string. -/
structure BoardPermission where
  boardId : String
  userId : String
  level : String
deriving DecidableEq, Repr

/-- Row of board_group_permissions: UNIQUE(board_id, group_id). -/
structure BoardGroupPermission where
  boardId : String
  groupId : String
  level : String
deriving DecidableEq, Repr

/-- Row of user_groups: UNIQUE(workspace_id, name). -/
structure UserGroup where
  id : String
  workspaceId : String
  name : String
deriving DecidableEq, Repr

/-- Row of user_group_members: UNIQUE(group_id, user_id). -/
structure UserGroupMember where
  groupId : String
  userId : String
deriving DecidableEq, Repr

/-- Row of permission_audit_logs. old_value/new_value hold JSON in the source;
the only object ever written is JSON.stringify({ name, permissions }) by
CreateRole, modelled as a (name, permission list) pair. -/
structure AuditEntry where
  workspaceId : String
  action : String
  entityType : String
  entityId : String
  performedBy : String
  targetUserId : Option String
  oldValue : Option (String × List String)
  newValue : Option (String × List String)
deriving DecidableEq, Repr

/-- The database state restricted to the tables the permission subsystem
touches. -/
structure DBState where
  workspaces : List Workspace
  members : List Membership
  permissions : List PermissionRow
  workspaceRoles : List WorkspaceRole
  rolePermissions : List RolePermission
  userRoles : List UserRole
  boards : List Board
  boardPermissions : List BoardPermission
  boardGroupPermissions : List BoardGroupPermission
  userGroups : List UserGroup
  userGroupMembers : List UserGroupMember
  auditLogs : List AuditEntry
deriving DecidableEq, Repr

/-- The empty database. -/
def emptyDB : DBState :=
  ⟨[], [], [], [], [], [], [], [], [], [], [], []⟩

/-- SELECT role FROM workspace_members WHERE workspace_id = $1 AND
user_id = $2, taking rows[0] as the middleware does. -/
def findMemberRole (s : DBState) (wsId userId : String) : Option String :=
  ((s.members.filter (fun m => m.workspaceId == wsId && m.userId == userId)).head?).map
    (fun m => m.role)

/-- The check `['owner', 'admin'].includes(role)` used throughout the source. -/
def isAdminRole (r : String) : Bool :=
  r == "owner" || r == "admin"

/-- The join rows of the custom-role permission query in checkPermission:
user_roles ur JOIN role_permissions rp ON rp.role_id = ur.role_id JOIN
permissions p ON p.id = rp.permission_id WHERE ur.user_id = $1 AND
ur.workspace_id = $2 AND p.code = $3. -/
def grantRows (s : DBState) (userId wsId code : String) :
    List (UserRole × RolePermission × PermissionRow) :=
  (s.userRoles.filter (fun ur => ur.userId == userId && ur.workspaceId == wsId)).flatMap
    (fun ur =>
      (s.rolePermissions.filter (fun rp => rp.roleId == ur.roleId)).flatMap
        (fun rp =>
          (s.permissions.filter (fun p => p.id == rp.permissionId && p.code == code)).map
            (fun p => (ur, rp, p))))

/-- Outcome of the workspace-level permission middleware: the three distinct
responses checkPermission can produce once a workspace id is present. -/
inductive WsDecision where
  | allow
  | denyNotMember
  | denyNoPermission
deriving DecidableEq, Repr

/-- Shallow embedding of checkPermission (auth middleware): membership row
absent gives 403 not-a-member; owner/admin short-circuits to next(); otherwise
the COUNT(*) of the custom-role join decides. -/
def checkPermission (s : DBState) (userId wsId code : String) : WsDecision :=
  match findMemberRole s wsId userId with
  | none => .denyNotMember
  | some r =>
    if isAdminRole r then .allow
    else if 0 < (grantRows s userId wsId code).length then .allow
    else .denyNoPermission

/-- The permission codes of all custom roles assigned to the principal in the
workspace (the union in step 3 of the spec's DecideWorkspace algorithm). -/
def assignedRoleCodes (s : DBState) (userId wsId : String) : List String :=
  (s.userRoles.filter (fun ur => ur.userId == userId && ur.workspaceId == wsId)).flatMap
    (fun ur =>
      (s.rolePermissions.filter (fun rp => rp.roleId == ur.roleId)).flatMap
        (fun rp =>
          (s.permissions.filter (fun p => p.id == rp.permissionId)).map
            (fun p => p.code)))

/-- The workspace-level decision written from the spec's words (section 4.1):
no Membership row gives Deny NotMember; owner or admin gives Allow; otherwise
Allow exactly when the code is in the union of the assigned roles' permission
codes, else Deny NoPermission. -/
def decideWorkspaceSpec (s : DBState) (userId wsId code : String) : WsDecision :=
  match findMemberRole s wsId userId with
  | none => .denyNotMember
  | some r =>
    if r = "owner" ∨ r = "admin" then .allow
    else if code ∈ assignedRoleCodes s userId wsId then .allow
    else .denyNoPermission

theorem mem_assignedRoleCodes_iff (s : DBState) (userId wsId code : String) :
    code ∈ assignedRoleCodes s userId wsId ↔ grantRows s userId wsId code ≠ [] := by
  rw [← List.length_pos, List.length_pos_iff_exists_mem]
  simp only [assignedRoleCodes, grantRows, List.mem_flatMap, List.mem_map,
    List.mem_filter, Bool.and_eq_true, beq_iff_eq]
  constructor
  · rintro ⟨ur, ⟨hur, hu, hw⟩, rp, ⟨hrp, hr⟩, p, ⟨hp, hid⟩, hcode⟩
    exact ⟨(ur, rp, p), ur, ⟨hur, hu, hw⟩, rp, ⟨hrp, hr⟩, p, ⟨hp, hid, hcode⟩, rfl⟩
  · rintro ⟨x, ur, ⟨hur, hu, hw⟩, rp, ⟨hrp, hr⟩, p, ⟨hp, hid, hcode⟩, rfl⟩
    exact ⟨ur, ⟨hur, hu, hw⟩, rp, ⟨hrp, hr⟩, p, ⟨hp, hid⟩, hcode⟩

/-- C1: the workspace-level decision of checkPermission follows the three-step
algorithm: no Membership row gives Deny(NotMember); a Membership role of owner
or admin gives Allow with no further checks; otherwise Allow exactly when the
permission code lies in the union of the permission codes of the custom roles
assigned to the principal in that workspace, else Deny(NoPermission). -/
theorem checkPermission_follows_three_step_algorithm
    (s : DBState) (userId wsId code : String) :
    checkPermission s userId wsId code = decideWorkspaceSpec s userId wsId code := by
  unfold checkPermission decideWorkspaceSpec
  cases h : findMemberRole s wsId userId with
  | none => rfl
  | some r =>
    simp only [isAdminRole, Bool.or_eq_true, beq_iff_eq]
    by_cases hadm : r = "owner" ∨ r = "admin"
    · simp [hadm]
    · simp only [hadm, if_false]
      by_cases hmem : code ∈ assignedRoleCodes s userId wsId
      · have hg : 0 < (grantRows s userId wsId code).length :=
          List.length_pos.mpr ((mem_assignedRoleCodes_iff s userId wsId code).mp hmem)
        simp [hmem, hg]
      · have hg : ¬ 0 < (grantRows s userId wsId code).length := fun hpos =>
          hmem ((mem_assignedRoleCodes_iff s userId wsId code).mpr (List.length_pos.mp hpos))
        simp [hmem, hg]

/-- The join rows of the checkBoardAccess query: boards b JOIN
workspace_members wm ON wm.workspace_id = b.workspace_id WHERE b.id = $1 AND
wm.user_id = $2. -/
def boardAccessRows (s : DBState) (userId boardId : String) :
    List (Board × Membership) :=
  (s.boards.filter (fun bd => bd.id == boardId)).flatMap
    (fun bd =>
      (s.members.filter (fun m => m.workspaceId == bd.workspaceId && m.userId == userId)).map
        (fun m => (bd, m)))

/-- Shallow embedding of checkBoardAccess (auth middleware): allow exactly
when the join of the board with the caller's workspace membership is
non-empty; otherwise 403. -/
def checkBoardAccess (s : DBState) (userId boardId : String) : Bool :=
  !(boardAccessRows s userId boardId).isEmpty

/-- The ordering view < edit < admin of the spec, as a numeric rank; unknown
strings rank lowest. -/
def levelRank : String → Nat := fun l =>
  if l = "view" then 1 else if l = "edit" then 2 else if l = "admin" then 3 else 0

/-- Rank of an optional level; "none" ranks below view. -/
def optLevelRank : Option String → Nat
  | none => 0
  | some l => levelRank l

/-- The caller's direct per-user override level on a board (board_permissions
row for (boardId, userId)). -/
def directBoardLevel (s : DBState) (boardId userId : String) : Option String :=
  ((s.boardPermissions.filter (fun bp => bp.boardId == boardId && bp.userId == userId)).head?).map
    (fun bp => bp.level)

/-- Ids of the groups of the given workspace that the user belongs to. -/
def userGroupIdsIn (s : DBState) (wsId userId : String) : List String :=
  (s.userGroups.filter (fun g => g.workspaceId == wsId)).flatMap
    (fun g =>
      (s.userGroupMembers.filter (fun gm => gm.groupId == g.id && gm.userId == userId)).map
        (fun _ => g.id))

/-- Maximum rank over the group overrides on the board, across every group of
the workspace the user belongs to. -/
def groupBoardLevelRank (s : DBState) (boardId wsId userId : String) : Nat :=
  ((userGroupIdsIn s wsId userId).flatMap
    (fun gid =>
      (s.boardGroupPermissions.filter (fun bgp => bgp.boardId == boardId && bgp.groupId == gid)).map
        (fun bgp => levelRank bgp.level))).foldr max 0

/-- The resource-level decision written from the spec's words (section 4.2)
for boards: owner/admin membership allows; otherwise the effective level is
the maximum of the direct per-user override level and the maximum group
override level, and access is allowed exactly when the effective level reaches
the required level. A missing board or membership denies. -/
def decideBoardSpec (s : DBState) (userId boardId requiredLevel : String) : Bool :=
  match (s.boards.filter (fun bd => bd.id == boardId)).head? with
  | none => false
  | some bd =>
    match findMemberRole s bd.workspaceId userId with
    | none => false
    | some r =>
      if r = "owner" ∨ r = "admin" then true
      else
        decide (levelRank requiredLevel ≤
          max (optLevelRank (directBoardLevel s boardId userId))
            (groupBoardLevelRank s boardId bd.workspaceId userId))

/-- A concrete state: workspace w1 owned by a, user u1 a viewer member, board
b1 in w1, and no per-user or per-group overrides at all. -/
def boardCexState : DBState :=
  { emptyDB with
    workspaces := [⟨"w1", "a"⟩]
    members := [⟨"w1", "a", "owner"⟩, ⟨"w1", "u1", "viewer"⟩]
    boards := [⟨"b1", "w1"⟩] }

/-- C2 counterexample: the claim says the board decision computes an effective
override level and compares it with the required level, so viewer u1 with no
override should be denied even for the lowest level "view"; the code's
checkBoardAccess allows u1 because any workspace membership suffices. -/
theorem checkBoardAccess_ignores_override_levels_cex :
    checkBoardAccess boardCexState "u1" "b1" = true ∧
      decideBoardSpec boardCexState "u1" "b1" "view" = false := by
  constructor <;> rfl

/-- C2 amended: the board-level decision of checkBoardAccess allows exactly
when the board exists and the caller has a Membership row of any role in the
board's workspace; the override levels of board_permissions and
board_group_permissions are never consulted. -/
theorem checkBoardAccess_iff_any_membership (s : DBState) (userId boardId : String) :
    checkBoardAccess s userId boardId = true ↔
      ∃ bd ∈ s.boards, bd.id = boardId ∧
        ∃ m ∈ s.members, m.workspaceId = bd.workspaceId ∧ m.userId = userId := by
  unfold checkBoardAccess boardAccessRows
  rw [Bool.not_eq_true', List.isEmpty_eq_false_iff_exists_mem]
  constructor
  · rintro ⟨x, hmem⟩
    simp only [List.mem_flatMap, List.mem_map, List.mem_filter, Bool.and_eq_true,
      beq_iff_eq] at hmem
    obtain ⟨bd1, ⟨hbd, hid⟩, m1, ⟨hm, hw, hu⟩, heq⟩ := hmem
    exact ⟨bd1, hbd, hid, m1, hm, hw, hu⟩
  · rintro ⟨bd, hbd, hid, m, hm, hw, hu⟩
    refine ⟨(bd, m), ?_⟩
    simp only [List.mem_flatMap, List.mem_map, List.mem_filter, Bool.and_eq_true,
      beq_iff_eq]
    exact ⟨bd, ⟨hbd, hid⟩, m, ⟨hm, hw, hu⟩, rfl⟩

/-- C9: the board-access decision is insensitive to the board_permissions and
board_group_permissions tables — two states that differ only there produce
identical decisions for every user and board — and it allows exactly when the
user holds any Membership row (any role) in the board's workspace. -/
theorem checkBoardAccess_depends_only_on_membership :
    (∀ (s : DBState) (bp : List BoardPermission) (bgp : List BoardGroupPermission)
      (userId boardId : String),
      checkBoardAccess { s with boardPermissions := bp, boardGroupPermissions := bgp }
        userId boardId = checkBoardAccess s userId boardId) ∧
    (∀ (s : DBState) (userId boardId : String),
      checkBoardAccess s userId boardId = true ↔
        ∃ bd ∈ s.boards, bd.id = boardId ∧
          ∃ m ∈ s.members, m.workspaceId = bd.workspaceId ∧ m.userId = userId) := by
  constructor
  · intro s bp bgp userId boardId
    rfl
  · intro s userId boardId
    unfold checkBoardAccess boardAccessRows
    rw [Bool.not_eq_true', List.isEmpty_eq_false_iff_exists_mem]
    constructor
    · rintro ⟨x, hmem⟩
      simp only [List.mem_flatMap, List.mem_map, List.mem_filter, Bool.and_eq_true,
        beq_iff_eq] at hmem
      obtain ⟨bd1, ⟨hbd, hid⟩, m1, ⟨hm, hw, hu⟩, heq⟩ := hmem
      exact ⟨bd1, hbd, hid, m1, hm, hw, hu⟩
    · rintro ⟨bd, hbd, hid, m, hm, hw, hu⟩
      refine ⟨(bd, m), ?_⟩
      simp only [List.mem_flatMap, List.mem_map, List.mem_filter, Bool.and_eq_true,
        beq_iff_eq]
      exact ⟨bd, ⟨hbd, hid⟩, m, ⟨hm, hw, hu⟩, rfl⟩

/-- Result of a route call: the database after the call together with the
HTTP error status it responded with (none on success). -/
abbrev OpResult := DBState × Option Nat

/-- SELECT id FROM permissions WHERE code = $1, taking rows[0]. -/
def lookupPermId (s : DBState) (code : String) : Option String :=
  ((s.permissions.filter (fun p => p.code == code)).head?).map (fun p => p.id)

/-- INSERT INTO role_permissions ... ON CONFLICT DO NOTHING, as in the
CreateRole permission loop. -/
def insertGrantIgnore (grants : List RolePermission) (roleId pid : String) :
    List RolePermission :=
  if grants.any (fun rp => rp.roleId == roleId && rp.permissionId == pid) then grants
  else grants ++ [⟨roleId, pid⟩]

/-- The CreateRole permission loop: each requested code is looked up in the
catalog; missing codes are skipped; found ones are inserted with ON CONFLICT
DO NOTHING. -/
def createRoleGrantsLoop (s : DBState) (roleId : String) (codes : List String)
    (grants : List RolePermission) : List RolePermission :=
  codes.foldl
    (fun acc code =>
      match lookupPermId s code with
      | none => acc
      | some pid => insertGrantIgnore acc roleId pid)
    grants

/-- The UpdateRole permission loop: plain INSERT, so a second insert of the
same (role_id, permission_id) pair raises the unique violation that aborts
the whole transaction (modelled as none). -/
def updateGrantsLoop (s : DBState) (roleId : String) (codes : List String)
    (grants : List RolePermission) : Option (List RolePermission) :=
  codes.foldl
    (fun acc code =>
      match acc with
      | none => none
      | some g =>
        match lookupPermId s code with
        | none => some g
        | some pid =>
          if g.any (fun rp => rp.roleId == roleId && rp.permissionId == pid) then none
          else some (g ++ [⟨roleId, pid⟩]))
    (some grants)

/-- The admin access check of POST /roles: the performer must hold an owner or
admin membership in the target workspace. -/
def wsAdminOk (s : DBState) (performer wsId : String) : Bool :=
  match findMemberRole s wsId performer with
  | none => false
  | some r => isAdminRole r

/-- The access check of PUT /roles/:roleId and DELETE /roles/:roleId: join the
role with the performer's membership in the role's workspace; the performer
must be owner or admin there. -/
def roleAdminOk (s : DBState) (performer roleId : String) : Bool :=
  match (s.workspaceRoles.filter (fun r => r.id == roleId)).head? with
  | none => false
  | some role => wsAdminOk s performer role.workspaceId

/-- Shallow embedding of POST /roles (CreateRole). Inside one transaction the
role row is inserted (a duplicate (workspace, name) raises 23505, answered
with 400 after rollback) and the permission loop runs; after COMMIT the audit
row is written outside the transaction. auditOk models whether that write
succeeds: when it fails the exception propagates, the handler answers 500,
yet the committed role and grants persist. -/
def createRole (s : DBState) (performer wsId name roleId : String)
    (permCodes : List String) (auditOk : Bool) : OpResult :=
  if !(wsAdminOk s performer wsId) then (s, some 403)
  else if s.workspaceRoles.any (fun r => r.workspaceId == wsId && r.name == name) then
    (s, some 400)
  else
    let committed : DBState :=
      { s with
        workspaceRoles := s.workspaceRoles ++ [⟨roleId, wsId, name⟩]
        rolePermissions := createRoleGrantsLoop s roleId permCodes s.rolePermissions }
    if auditOk then
      ({ committed with
        auditLogs := committed.auditLogs ++
          [⟨wsId, "role_created", "role", roleId, performer, none, none,
            some (name, permCodes)⟩] }, none)
    else (committed, some 500)

/-- The name collision the UPDATE of workspace_roles can raise through
UNIQUE(workspace_id, name): some other role of the same workspace already
carries the requested name. -/
def updateNameConflict (s : DBState) (roleId : String) (newName : Option String) : Bool :=
  match newName, (s.workspaceRoles.filter (fun r2 => r2.id == roleId)).head? with
  | some nm, some r2 =>
    s.workspaceRoles.any (fun r =>
      !(r.id == roleId) && r.name == nm && r.workspaceId == r2.workspaceId)
  | _, _ => false

/-- Shallow embedding of PUT /roles/:roleId (UpdateRole) restricted to the
columns the claims touch (name and permissions). A name collision or a
repeated catalog code in the permission loop raises inside the transaction:
everything rolls back and the handler answers 500. No audit row is written. -/
def updateRole (s : DBState) (performer roleId : String) (newName : Option String)
    (permCodes : Option (List String)) : OpResult :=
  if !(roleAdminOk s performer roleId) then (s, some 403)
  else
    if updateNameConflict s roleId newName then (s, some 500)
    else
      let roles1 :=
        match newName with
        | none => s.workspaceRoles
        | some nm =>
          s.workspaceRoles.map (fun r => if r.id == roleId then { r with name := nm } else r)
      match permCodes with
      | none => ({ s with workspaceRoles := roles1 }, none)
      | some codes =>
        match updateGrantsLoop s roleId codes
            (s.rolePermissions.filter (fun rp => !(rp.roleId == roleId))) with
        | none => (s, some 500)
        | some g => ({ s with workspaceRoles := roles1, rolePermissions := g }, none)

/-- Shallow embedding of DELETE /roles/:roleId: after the access check the
workspace_roles row is deleted; role_permissions and user_roles rows cascade
by the schema's ON DELETE CASCADE. No audit row is written. -/
def deleteRole (s : DBState) (performer roleId : String) : OpResult :=
  if !(roleAdminOk s performer roleId) then (s, some 403)
  else
    ({ s with
      workspaceRoles := s.workspaceRoles.filter (fun r => !(r.id == roleId))
      rolePermissions := s.rolePermissions.filter (fun rp => !(rp.roleId == roleId))
      userRoles := s.userRoles.filter (fun ur => !(ur.roleId == roleId)) }, none)

/-- Shallow embedding of POST /users/:userId/roles (AssignRole): upsert of the
user_roles row with ON CONFLICT DO NOTHING, then one audit row with action
role_assigned and no value snapshots. -/
def assignRole (s : DBState) (performer targetUser wsId roleId : String) : OpResult :=
  if !(wsAdminOk s performer wsId) then (s, some 403)
  else
    let urs :=
      if s.userRoles.any (fun ur =>
          ur.userId == targetUser && ur.workspaceId == wsId && ur.roleId == roleId) then
        s.userRoles
      else s.userRoles ++ [⟨targetUser, wsId, roleId⟩]
    ({ s with
      userRoles := urs
      auditLogs := s.auditLogs ++
        [⟨wsId, "role_assigned", "user_role", roleId, performer, some targetUser,
          none, none⟩] }, none)

/-- Shallow embedding of POST /boards/:boardId/users/:userId (SetOverride for
boards): 404 when the board is missing; the performer must hold a board
permission of level admin on the board or be workspace owner/admin; then
INSERT ... ON CONFLICT (board_id, user_id) DO UPDATE SET permission_level.
No audit row is written. -/
def setBoardPermission (s : DBState) (performer boardId targetUser level : String) :
    OpResult :=
  match (s.boards.filter (fun b => b.id == boardId)).head? with
  | none => (s, some 404)
  | some board =>
    let reqLevel :=
      ((s.boardPermissions.filter (fun bp =>
        bp.boardId == boardId && bp.userId == performer)).head?).map (fun bp => bp.level)
    let isAdmin := reqLevel == some "admin"
    let isWsAdmin := wsAdminOk s performer board.workspaceId
    if !isAdmin && !isWsAdmin then (s, some 403)
    else
      let bps :=
        if s.boardPermissions.any (fun bp =>
            bp.boardId == boardId && bp.userId == targetUser) then
          s.boardPermissions.map (fun bp =>
            if bp.boardId == boardId && bp.userId == targetUser then
              { bp with level := level }
            else bp)
        else s.boardPermissions ++ [⟨boardId, targetUser, level⟩]
      ({ s with boardPermissions := bps }, none)

/-- Shallow embedding of DELETE /boards/:boardId/users/:userId (RemoveOverride
for boards): unconditional delete, idempotent, no audit row. -/
def removeBoardPermission (s : DBState) (boardId targetUser : String) : OpResult :=
  ({ s with
    boardPermissions := s.boardPermissions.filter (fun bp =>
      !(bp.boardId == boardId && bp.userId == targetUser)) }, none)

/-- Shallow embedding of POST /groups/:groupId/members/:userId: INSERT ... ON
CONFLICT DO NOTHING; no audit row. -/
def addGroupMember (s : DBState) (groupId userId : String) : OpResult :=
  if s.userGroupMembers.any (fun gm => gm.groupId == groupId && gm.userId == userId) then
    (s, none)
  else ({ s with userGroupMembers := s.userGroupMembers ++ [⟨groupId, userId⟩] }, none)

/-- Shallow embedding of DELETE /groups/:groupId/members/:userId: delete; no
audit row. -/
def removeGroupMember (s : DBState) (groupId userId : String) : OpResult :=
  ({ s with
    userGroupMembers := s.userGroupMembers.filter (fun gm =>
      !(gm.groupId == groupId && gm.userId == userId)) }, none)

/-- The member roles the express-validator accepts on invite, add-member and
role-change routes: isIn(['admin', 'member', 'viewer']). -/
def validMemberRole (r : String) : Bool :=
  r == "admin" || r == "member" || r == "viewer"

/-- Shallow embedding of workspace creation (POST /, and the copy in
registration): a workspaces row owned by the creator plus one
workspace_members row with role owner. The primary key makes the fresh id
distinct from every existing workspace id. -/
def createWorkspace (s : DBState) (creator wsId : String) : OpResult :=
  if s.workspaces.any (fun w => w.id == wsId) then (s, some 500)
  else
    ({ s with
      workspaces := s.workspaces ++ [⟨wsId, creator⟩]
      members := s.members ++ [⟨wsId, creator, "owner"⟩] }, none)

/-- Shallow embedding of the add-member routes (invite, add member, accept
invitation): performer must be workspace owner/admin, the role is validated to
admin/member/viewer, and an existing membership is answered with 400. -/
def addMember (s : DBState) (performer wsId newUser role : String) : OpResult :=
  match findMemberRole s wsId performer with
  | none => (s, some 403)
  | some r =>
    if !(isAdminRole r) then (s, some 403)
    else if !(validMemberRole role) then (s, some 400)
    else if s.members.any (fun m => m.workspaceId == wsId && m.userId == newUser) then
      (s, some 400)
    else ({ s with members := s.members ++ [⟨wsId, newUser, role⟩] }, none)

/-- Shallow embedding of PUT /workspace/:workspaceId/members/:memberId/role:
only the workspace owner may call it, the new role is validated to
admin/member/viewer, and changing the role of workspaces.owner_id is
rejected with 400. -/
def updateMemberRole (s : DBState) (performer wsId target newRole : String) : OpResult :=
  match findMemberRole s wsId performer with
  | none => (s, some 403)
  | some r =>
    if !(r == "owner") then (s, some 403)
    else if !(validMemberRole newRole) then (s, some 400)
    else
      match (s.workspaces.filter (fun w => w.id == wsId)).head? with
      | none => (s, some 500)
      | some w =>
        if w.ownerId == target then (s, some 400)
        else
          ({ s with
            members := s.members.map (fun m =>
              if m.workspaceId == wsId && m.userId == target then { m with role := newRole }
              else m) }, none)

/-- Shallow embedding of DELETE /workspace/:workspaceId/members/:memberId:
self-removal is always permitted, removing others needs owner/admin, removing
workspaces.owner_id is rejected with 400, and an admin may not remove another
admin. -/
def removeMember (s : DBState) (performer wsId target : String) : OpResult :=
  match findMemberRole s wsId performer with
  | none => (s, some 403)
  | some r =>
    if !(target == performer) && !(isAdminRole r) then (s, some 403)
    else
      match (s.workspaces.filter (fun w => w.id == wsId)).head? with
      | none => (s, some 500)
      | some w =>
        if w.ownerId == target then (s, some 400)
        else if r == "admin" && !(target == performer) &&
            (findMemberRole s wsId target == some "admin") then (s, some 403)
        else
          ({ s with
            members := s.members.filter (fun m =>
              !(m.workspaceId == wsId && m.userId == target)) }, none)

/-- Shallow embedding of POST /workspace/:workspaceId/transfer-ownership: the
performer's membership role must be owner and the new owner must be a member;
then, in one transaction and in this order, workspaces.owner_id is set to the
new owner, the new owner's membership role is set to owner, and the
performer's membership role is set to admin. -/
def transferOwnership (s : DBState) (performer wsId newOwner : String) : OpResult :=
  match findMemberRole s wsId performer with
  | none => (s, some 403)
  | some r =>
    if !(r == "owner") then (s, some 403)
    else if !(s.members.any (fun m => m.workspaceId == wsId && m.userId == newOwner)) then
      (s, some 400)
    else
      let ws1 := s.workspaces.map (fun w =>
        if w.id == wsId then { w with ownerId := newOwner } else w)
      let m1 := s.members.map (fun m =>
        if m.workspaceId == wsId && m.userId == newOwner then { m with role := "owner" }
        else m)
      let m2 := m1.map (fun m =>
        if m.workspaceId == wsId && m.userId == performer then { m with role := "admin" }
        else m)
      ({ s with workspaces := ws1, members := m2 }, none)

/-- The states reachable through the modelled routes, starting from the empty
database. -/
inductive Reachable : DBState → Prop
  | init : Reachable emptyDB
  | createWs (s : DBState) (creator wsId : String) :
      Reachable s → Reachable (createWorkspace s creator wsId).1
  | addMem (s : DBState) (performer wsId newUser role : String) :
      Reachable s → Reachable (addMember s performer wsId newUser role).1
  | updateMemRole (s : DBState) (performer wsId target newRole : String) :
      Reachable s → Reachable (updateMemberRole s performer wsId target newRole).1
  | removeMem (s : DBState) (performer wsId target : String) :
      Reachable s → Reachable (removeMember s performer wsId target).1
  | transferOwn (s : DBState) (performer wsId newOwner : String) :
      Reachable s → Reachable (transferOwnership s performer wsId newOwner).1
  | createR (s : DBState) (performer wsId name roleId : String)
      (permCodes : List String) (auditOk : Bool) :
      Reachable s → Reachable (createRole s performer wsId name roleId permCodes auditOk).1
  | updateR (s : DBState) (performer roleId : String) (newName : Option String)
      (permCodes : Option (List String)) :
      Reachable s → Reachable (updateRole s performer roleId newName permCodes).1
  | deleteR (s : DBState) (performer roleId : String) :
      Reachable s → Reachable (deleteRole s performer roleId).1
  | assignR (s : DBState) (performer targetUser wsId roleId : String) :
      Reachable s → Reachable (assignRole s performer targetUser wsId roleId).1
  | setBP (s : DBState) (performer boardId targetUser level : String) :
      Reachable s → Reachable (setBoardPermission s performer boardId targetUser level).1
  | removeBP (s : DBState) (boardId targetUser : String) :
      Reachable s → Reachable (removeBoardPermission s boardId targetUser).1
  | addGM (s : DBState) (groupId userId : String) :
      Reachable s → Reachable (addGroupMember s groupId userId).1
  | removeGM (s : DBState) (groupId userId : String) :
      Reachable s → Reachable (removeGroupMember s groupId userId).1

/-- A concrete state: workspace w1 owned by a (an owner member) with one
custom role r1 and an empty audit log. -/
def auditCexState : DBState :=
  { emptyDB with
    workspaces := [⟨"w1", "a"⟩]
    members := [⟨"w1", "a", "owner"⟩]
    workspaceRoles := [⟨"r1", "w1", "R"⟩] }

/-- C3 counterexample: a successful UpdateRole (here replacing role r1's
grants by the empty set) writes no audit entry at all, not exactly one per
logical change as claimed. -/
theorem updateRole_writes_no_audit_cex :
    (updateRole auditCexState "a" "r1" none (some [])).2 = none ∧
      (updateRole auditCexState "a" "r1" none (some [])).1.auditLogs = [] := by
  constructor <;> rfl

/-- C3 amended: among the administrative mutations only CreateRole and
AssignRole write an audit entry — a successful CreateRole appends exactly one
(action role_created, no oldValue, newValue the requested name and permission
list) and a successful AssignRole appends exactly one (action role_assigned,
no value snapshots) — while UpdateRole, DeleteRole, SetOverride,
RemoveOverride and both group-membership changes never touch the audit log. -/
theorem audit_entries_only_createRole_and_assignRole :
    (∀ (s : DBState) (p w n rid : String) (codes : List String),
      ((createRole s p w n rid codes true).2 = none →
        (createRole s p w n rid codes true).1.auditLogs =
          s.auditLogs ++
            [⟨w, "role_created", "role", rid, p, none, none, some (n, codes)⟩]) ∧
      ((createRole s p w n rid codes true).2 ≠ none →
        (createRole s p w n rid codes true).1.auditLogs = s.auditLogs)) ∧
    (∀ (s : DBState) (p rid : String) (nm : Option String) (codes : Option (List String)),
      (updateRole s p rid nm codes).1.auditLogs = s.auditLogs) ∧
    (∀ (s : DBState) (p rid : String), (deleteRole s p rid).1.auditLogs = s.auditLogs) ∧
    (∀ (s : DBState) (p b u l : String),
      (setBoardPermission s p b u l).1.auditLogs = s.auditLogs) ∧
    (∀ (s : DBState) (b u : String),
      (removeBoardPermission s b u).1.auditLogs = s.auditLogs) ∧
    (∀ (s : DBState) (g u : String), (addGroupMember s g u).1.auditLogs = s.auditLogs) ∧
    (∀ (s : DBState) (g u : String), (removeGroupMember s g u).1.auditLogs = s.auditLogs) ∧
    (∀ (s : DBState) (p t w rid : String),
      (assignRole s p t w rid).2 = none →
        (assignRole s p t w rid).1.auditLogs =
          s.auditLogs ++ [⟨w, "role_assigned", "user_role", rid, p, some t, none, none⟩]) := by
  refine ⟨?_, ?_, ?_, ?_, ?_, ?_, ?_, ?_⟩
  · intro s p w n rid codes
    unfold createRole
    split_ifs with h1 h2 h3
    · exact ⟨fun h => absurd h (by simp), fun _ => rfl⟩
    · exact ⟨fun h => absurd h (by simp), fun _ => rfl⟩
    · exact ⟨fun _ => rfl, fun h => absurd rfl h⟩
    · exact absurd rfl h3
  · intro s p rid nm codes
    unfold updateRole
    split_ifs with h1 h2
    · rfl
    · rfl
    · cases codes with
      | none => rfl
      | some cs =>
        cases h : updateGrantsLoop s rid cs
            (s.rolePermissions.filter (fun rp => !(rp.roleId == rid))) with
        | none => simp [h]
        | some g => simp [h]
  · intro s p rid
    unfold deleteRole
    split_ifs with h1
    · rfl
    · rfl
  · intro s p b u l
    unfold setBoardPermission
    split
    · rfl
    · dsimp only
      split
      · rfl
      · split
        · rfl
        · rfl
  · intro s b u
    rfl
  · intro s g u
    unfold addGroupMember
    split_ifs with h1
    · rfl
    · rfl
  · intro s g u
    rfl
  · intro s p t w rid
    unfold assignRole
    split_ifs with h1 h2
    · intro h
      exact absurd h (by simp)
    · intro _
      rfl
    · intro _
      rfl

/-- Witness for the amended C3 theorem: at the concrete state, a successful
UpdateRole leaves the audit log unchanged and a successful CreateRole appends
exactly its one role_created entry. -/
theorem audit_entries_only_createRole_and_assignRole_witness :
    (updateRole auditCexState "a" "r1" none none).1.auditLogs = auditCexState.auditLogs ∧
      (createRole auditCexState "a" "w1" "R2" "r2" [] true).1.auditLogs =
        auditCexState.auditLogs ++
          [⟨"w1", "role_created", "role", "r2", "a", none, none, some ("R2", [])⟩] := by
  constructor
  · exact audit_entries_only_createRole_and_assignRole.2.1 auditCexState "a" "r1" none none
  · exact (audit_entries_only_createRole_and_assignRole.1 auditCexState "a" "w1" "R2" "r2"
      []).1 (by decide)

/-- C5 counterexample: when the audit write after COMMIT fails, CreateRole at
a concrete state keeps the committed role (it is not rolled back) but the
handler answers 500 — the mutation is reported as failed to the caller, and
the error is logged through logger.error, not caught as a warning. -/
theorem createRole_audit_failure_reports_error_cex :
    (createRole auditCexState "a" "w1" "R2" "r2" [] false).2 = some 500 ∧
      (⟨"r2", "w1", "R2"⟩ : WorkspaceRole) ∈
        (createRole auditCexState "a" "w1" "R2" "r2" [] false).1.workspaceRoles ∧
      (createRole auditCexState "a" "w1" "R2" "r2" [] false).1.auditLogs = [] := by
  refine ⟨rfl, ?_, rfl⟩
  decide

/-- C5 amended: if the audit write performed after CreateRole's transaction
commits fails, the committed role and grants persist unchanged (the mutation
is not rolled back), no audit row is appended, but the failure propagates and
the request is reported as failed with status 500 instead of succeeding. -/
theorem createRole_audit_failure_persists_role
    (s : DBState) (p w n rid : String) (codes : List String)
    (h : (createRole s p w n rid codes true).2 = none) :
    (createRole s p w n rid codes false).1.workspaceRoles =
      (createRole s p w n rid codes true).1.workspaceRoles ∧
    (createRole s p w n rid codes false).1.rolePermissions =
      (createRole s p w n rid codes true).1.rolePermissions ∧
    (createRole s p w n rid codes false).1.auditLogs = s.auditLogs ∧
    (createRole s p w n rid codes false).2 = some 500 := by
  unfold createRole at h ⊢
  by_cases h1 : (!wsAdminOk s p w) = true
  · simp only [if_pos h1] at h
    exact absurd h (by simp)
  · simp only [if_neg h1] at h ⊢
    by_cases h2 : (s.workspaceRoles.any fun r => r.workspaceId == w && r.name == n) = true
    · simp only [if_pos h2] at h
      exact absurd h (by simp)
    · simp only [if_neg h2] at h ⊢
      exact ⟨rfl, rfl, rfl, rfl⟩

/-- Witness for the amended C5 theorem at a concrete state: the failing-audit
run still contains the new role row and answers 500. -/
theorem createRole_audit_failure_persists_role_witness :
    (createRole auditCexState "a" "w1" "R3" "r3" [] false).1.workspaceRoles =
      (createRole auditCexState "a" "w1" "R3" "r3" [] true).1.workspaceRoles ∧
    (createRole auditCexState "a" "w1" "R3" "r3" [] false).1.rolePermissions =
      (createRole auditCexState "a" "w1" "R3" "r3" [] true).1.rolePermissions ∧
    (createRole auditCexState "a" "w1" "R3" "r3" [] false).1.auditLogs =
      auditCexState.auditLogs ∧
    (createRole auditCexState "a" "w1" "R3" "r3" [] false).2 = some 500 :=
  createRole_audit_failure_persists_role auditCexState "a" "w1" "R3" "r3" [] (by decide)

/-- The permission codes granted to a role through rows of a role_permissions
table, resolved against a permissions catalog. -/
def grantCodesOf (perms : List PermissionRow) (l : List RolePermission)
    (roleId : String) : List String :=
  (l.filter (fun rp => rp.roleId == roleId)).flatMap
    (fun rp => (perms.filter (fun q => q.id == rp.permissionId)).map (fun q => q.code))

/-- The permission codes granted to a role in a state. -/
def roleGrantCodes (s : DBState) (roleId : String) : List String :=
  grantCodesOf s.permissions s.rolePermissions roleId

/-- All codes of the permissions catalog. -/
def catalogCodes (s : DBState) : List String :=
  s.permissions.map (fun q => q.code)

theorem lookupPermId_spec (s : DBState) (c pid : String)
    (h : lookupPermId s c = some pid) :
    ∃ q ∈ s.permissions, q.id = pid ∧ q.code = c := by
  unfold lookupPermId at h
  cases hh : (s.permissions.filter (fun p => p.code == c)).head? with
  | none =>
    rw [hh] at h
    simp at h
  | some q =>
    rw [hh] at h
    simp only [Option.map_some', Option.some_inj] at h
    have hq : q ∈ s.permissions.filter (fun p => p.code == c) :=
      List.mem_of_mem_head? (by simp [hh])
    rw [List.mem_filter, beq_iff_eq] at hq
    exact ⟨q, hq.1, h, hq.2⟩

theorem lookupPermId_of_mem_catalog (s : DBState) (c : String)
    (h : c ∈ catalogCodes s) : ∃ pid, lookupPermId s c = some pid := by
  unfold catalogCodes at h
  rw [List.mem_map] at h
  obtain ⟨q, hq, hc⟩ := h
  have hne : s.permissions.filter (fun p => p.code == c) ≠ [] := by
    intro hnil
    have : q ∈ s.permissions.filter (fun p => p.code == c) := by
      rw [List.mem_filter, beq_iff_eq]
      exact ⟨hq, hc⟩
    rw [hnil] at this
    simp at this
  have hsome : ((s.permissions.filter (fun p => p.code == c)).head?).isSome :=
    List.head?_isSome.mpr hne
  obtain ⟨q0, hq0⟩ := Option.isSome_iff_exists.mp hsome
  exact ⟨q0.id, by unfold lookupPermId; rw [hq0]; rfl⟩

/-- Core characterization: if the role's rows in a grant table are exactly
those whose permission ids come from looking up the requested codes, then the
granted codes are exactly the requested codes that are in the catalog. -/
theorem mem_grantCodesOf_iff (s : DBState) (roleId : String) (codes : List String)
    (l : List RolePermission)
    (hid : (s.permissions.map (fun q => q.id)).Nodup)
    (hl : ∀ pid, (∃ rp ∈ l, rp.roleId = roleId ∧ rp.permissionId = pid) ↔
      pid ∈ codes.filterMap (lookupPermId s)) :
    ∀ c, c ∈ grantCodesOf s.permissions l roleId ↔ (c ∈ codes ∧ c ∈ catalogCodes s) := by
  intro c
  unfold grantCodesOf
  simp only [List.mem_flatMap, List.mem_map, List.mem_filter, Bool.and_eq_true, beq_iff_eq]
  constructor
  · rintro ⟨rp, ⟨hrp, hrid⟩, q, ⟨hq, hqid⟩, hqc⟩
    have hpid : rp.permissionId ∈ codes.filterMap (lookupPermId s) :=
      (hl rp.permissionId).mp ⟨rp, hrp, hrid, rfl⟩
    rw [List.mem_filterMap] at hpid
    obtain ⟨c0, hc0, hlook⟩ := hpid
    obtain ⟨q0, hq0, hq0id, hq0c⟩ := lookupPermId_spec s c0 rp.permissionId hlook
    have hqq0 : q = q0 :=
      List.inj_on_of_nodup_map hid hq hq0 (by rw [hqid, hq0id])
    have hcc0 : c = c0 := by rw [← hqc, hqq0, hq0c]
    constructor
    · rw [hcc0]
      exact hc0
    · rw [hcc0]
      unfold catalogCodes
      exact List.mem_map.mpr ⟨q0, hq0, hq0c⟩
  · rintro ⟨hc, hcat⟩
    obtain ⟨pid, hlook⟩ := lookupPermId_of_mem_catalog s c hcat
    obtain ⟨q0, hq0, hq0id, hq0c⟩ := lookupPermId_spec s c pid hlook
    have hpid : pid ∈ codes.filterMap (lookupPermId s) :=
      List.mem_filterMap.mpr ⟨c, hc, hlook⟩
    obtain ⟨rp, hrp, hrid, hrpid⟩ := (hl pid).mpr hpid
    exact ⟨rp, ⟨hrp, hrid⟩, q0, ⟨hq0, by rw [hq0id, hrpid]⟩, hq0c⟩

/-- On a duplicate-free looked-up code list, the UpdateRole insert loop
succeeds and appends exactly one row per looked-up permission id, provided no
existing row of the role collides with the ids still to insert. -/
theorem updateGrantsLoop_eq_of_nodup (s : DBState) (roleId : String) :
    ∀ (codes : List String) (init : List RolePermission),
      (∀ rp ∈ init, rp.roleId = roleId →
        rp.permissionId ∉ codes.filterMap (lookupPermId s)) →
      (codes.filterMap (lookupPermId s)).Nodup →
      updateGrantsLoop s roleId codes init =
        some (init ++ (codes.filterMap (lookupPermId s)).map
          (fun pid => (⟨roleId, pid⟩ : RolePermission))) := by
  intro codes
  induction codes with
  | nil => intro init _ _; simp [updateGrantsLoop]
  | cons c cs ih =>
    intro init hinit hnd
    unfold updateGrantsLoop
    rw [List.foldl_cons]
    cases hl : lookupPermId s c with
    | none =>
      have hfm : (c :: cs).filterMap (lookupPermId s) = cs.filterMap (lookupPermId s) := by
        rw [List.filterMap_cons, hl]
      rw [hfm] at hinit hnd ⊢
      have := ih init hinit hnd
      unfold updateGrantsLoop at this
      simpa [hl] using this
    | some pid =>
      have hfm : (c :: cs).filterMap (lookupPermId s) =
          pid :: cs.filterMap (lookupPermId s) := by
        rw [List.filterMap_cons, hl]
      rw [hfm] at hinit hnd
      have hnotin : (init.any (fun rp =>
          rp.roleId == roleId && rp.permissionId == pid)) = false := by
        rw [Bool.eq_false_iff]
        intro hany
        rw [List.any_eq_true] at hany
        obtain ⟨rp, hrp, hb⟩ := hany
        rw [Bool.and_eq_true, beq_iff_eq, beq_iff_eq] at hb
        exact hinit rp hrp hb.1 (by rw [hb.2]; exact List.mem_cons_self pid _)
      have hnd2 := (List.nodup_cons.mp hnd).2
      have hpid2 := (List.nodup_cons.mp hnd).1
      have hinit2 : ∀ rp ∈ init ++ [(⟨roleId, pid⟩ : RolePermission)],
          rp.roleId = roleId → rp.permissionId ∉ cs.filterMap (lookupPermId s) := by
        intro rp hrp hrid
        rw [List.mem_append] at hrp
        cases hrp with
        | inl hmem =>
          intro hcontra
          exact hinit rp hmem hrid (List.mem_cons_of_mem pid hcontra)
        | inr hone =>
          rw [List.mem_singleton] at hone
          subst hone
          exact hpid2
      have := ih (init ++ [⟨roleId, pid⟩]) hinit2 hnd2
      unfold updateGrantsLoop at this
      simp only [hl, hnotin] at this ⊢
      rw [hfm, List.map_cons, ← List.singleton_append, ← List.append_assoc]
      simpa using this

/-- Membership in the CreateRole insert loop result for a given role:
either the row was already present or its permission id comes from looking up
one of the requested codes. -/
theorem createRoleGrantsLoop_mem_iff (s : DBState) (roleId : String) :
    ∀ (codes : List String) (init : List RolePermission) (pid : String),
      (∃ rp ∈ createRoleGrantsLoop s roleId codes init,
        rp.roleId = roleId ∧ rp.permissionId = pid) ↔
      ((∃ rp ∈ init, rp.roleId = roleId ∧ rp.permissionId = pid) ∨
        pid ∈ codes.filterMap (lookupPermId s)) := by
  intro codes
  induction codes with
  | nil =>
    intro init pid
    simp [createRoleGrantsLoop]
  | cons c cs ih =>
    intro init pid
    unfold createRoleGrantsLoop
    rw [List.foldl_cons]
    cases hl : lookupPermId s c with
    | none =>
      have := ih init pid
      unfold createRoleGrantsLoop at this
      rw [this, List.filterMap_cons, hl]
    | some pid1 =>
      have := ih (insertGrantIgnore init roleId pid1) pid
      unfold createRoleGrantsLoop at this
      rw [this, List.filterMap_cons, hl]
      have hins : (∃ rp ∈ insertGrantIgnore init roleId pid1,
          rp.roleId = roleId ∧ rp.permissionId = pid) ↔
          ((∃ rp ∈ init, rp.roleId = roleId ∧ rp.permissionId = pid) ∨ pid = pid1) := by
        unfold insertGrantIgnore
        split_ifs with hany
        · constructor
          · intro h; exact Or.inl h
          · rintro (h | rfl)
            · exact h
            · rw [List.any_eq_true] at hany
              obtain ⟨rp, hrp, hb⟩ := hany
              rw [Bool.and_eq_true, beq_iff_eq, beq_iff_eq] at hb
              exact ⟨rp, hrp, hb.1, hb.2⟩
        · constructor
          · rintro ⟨rp, hrp, hrid, hpid⟩
            rw [List.mem_append] at hrp
            cases hrp with
            | inl hmem => exact Or.inl ⟨rp, hmem, hrid, hpid⟩
            | inr hone =>
              rw [List.mem_singleton] at hone
              subst hone
              exact Or.inr hpid.symm
          · rintro (⟨rp, hrp, hrid, hpid⟩ | rfl)
            · exact ⟨rp, List.mem_append_left _ hrp, hrid, hpid⟩
            · exact ⟨⟨roleId, pid⟩, List.mem_append_right _ (List.mem_singleton_self _),
                rfl, rfl⟩
      rw [hins, List.mem_cons]
      exact or_assoc

theorem updateNameConflict_none (s : DBState) (rid : String) :
    updateNameConflict s rid none = false := rfl

theorem updateRole_success_state (s : DBState) (p rid : String) (codes : List String)
    (g : List RolePermission)
    (hadm : roleAdminOk s p rid = true)
    (hloop : updateGrantsLoop s rid codes
      (s.rolePermissions.filter (fun rp => !(rp.roleId == rid))) = some g) :
    updateRole s p rid none (some codes) = ({ s with rolePermissions := g }, none) := by
  unfold updateRole
  rw [hadm]
  simp only [Bool.not_true, Bool.false_eq_true, if_false, updateNameConflict_none]
  rw [hloop]

theorem updateRole_error_keeps_state (s : DBState) (p rid : String)
    (nm : Option String) (cs : Option (List String)) :
    (updateRole s p rid nm cs).2 ≠ none → (updateRole s p rid nm cs).1 = s := by
  unfold updateRole
  split_ifs with h1 h2
  · intro _
    rfl
  · intro _
    rfl
  · cases cs with
    | none => intro hne; exact absurd rfl hne
    | some codes =>
      cases hl : updateGrantsLoop s rid codes
          (s.rolePermissions.filter (fun rp => !(rp.roleId == rid))) with
      | none =>
        intro _
        simp [hl]
      | some g =>
        intro hne
        simp [hl] at hne

/-- The successful permissions-replace path of UpdateRole: the role ends with
exactly the looked-up requested codes, everything previous gone. -/
theorem updateRole_replace_spec (s : DBState) (p rid : String) (codes : List String)
    (hid : (s.permissions.map (fun q => q.id)).Nodup)
    (hnd : (codes.filterMap (lookupPermId s)).Nodup)
    (hadm : roleAdminOk s p rid = true) :
    (updateRole s p rid none (some codes)).2 = none ∧
      ∀ c, c ∈ roleGrantCodes (updateRole s p rid none (some codes)).1 rid ↔
        (c ∈ codes ∧ c ∈ catalogCodes s) := by
  have hinit : ∀ rp ∈ s.rolePermissions.filter (fun rp => !(rp.roleId == rid)),
      rp.roleId = rid → rp.permissionId ∉ codes.filterMap (lookupPermId s) := by
    intro rp hrp hrid
    rw [List.mem_filter] at hrp
    rw [hrid] at hrp
    simp at hrp
  have hloop := updateGrantsLoop_eq_of_nodup s rid codes
    (s.rolePermissions.filter (fun rp => !(rp.roleId == rid))) hinit hnd
  have hstate := updateRole_success_state s p rid codes _ hadm hloop
  constructor
  · rw [hstate]
  · intro c
    rw [hstate]
    have hl : ∀ pid,
        (∃ rp ∈ (s.rolePermissions.filter (fun rp => !(rp.roleId == rid))) ++
            (codes.filterMap (lookupPermId s)).map
              (fun pid => (⟨rid, pid⟩ : RolePermission)),
          rp.roleId = rid ∧ rp.permissionId = pid) ↔
        pid ∈ codes.filterMap (lookupPermId s) := by
      intro pid
      constructor
      · rintro ⟨rp, hrp, hrid, hpid⟩
        rw [List.mem_append] at hrp
        cases hrp with
        | inl hdel =>
          rw [List.mem_filter] at hdel
          rw [hrid] at hdel
          simp at hdel
        | inr hnew =>
          rw [List.mem_map] at hnew
          obtain ⟨pid1, hpid1, hrp1⟩ := hnew
          subst hrp1
          rw [show (⟨rid, pid1⟩ : RolePermission).permissionId = pid1 from rfl] at hpid
          rw [← hpid]
          exact hpid1
      · intro hpid
        exact ⟨⟨rid, pid⟩, List.mem_append_right _ (List.mem_map.mpr ⟨pid, hpid, rfl⟩),
          rfl, rfl⟩
    exact mem_grantCodesOf_iff s rid codes _ hid hl c

/-- The successful CreateRole path: the fresh role ends with exactly the
looked-up requested codes. -/
theorem createRole_grants_spec (s : DBState) (p w n rid : String) (codes : List String)
    (hid : (s.permissions.map (fun q => q.id)).Nodup)
    (hfresh : ∀ rp ∈ s.rolePermissions, ¬ rp.roleId = rid)
    (hsucc : (createRole s p w n rid codes true).2 = none) :
    ∀ c, c ∈ roleGrantCodes (createRole s p w n rid codes true).1 rid ↔
      (c ∈ codes ∧ c ∈ catalogCodes s) := by
  unfold createRole at hsucc ⊢
  by_cases h1 : (!wsAdminOk s p w) = true
  · simp only [if_pos h1] at hsucc
    exact absurd hsucc (by simp)
  · simp only [if_neg h1] at hsucc ⊢
    by_cases h2 : (s.workspaceRoles.any fun r => r.workspaceId == w && r.name == n) = true
    · simp only [if_pos h2] at hsucc
      exact absurd hsucc (by simp)
    · simp only [if_neg h2]
      intro c
      have hl : ∀ pid, (∃ rp ∈ createRoleGrantsLoop s rid codes s.rolePermissions,
          rp.roleId = rid ∧ rp.permissionId = pid) ↔
          pid ∈ codes.filterMap (lookupPermId s) := by
        intro pid
        rw [createRoleGrantsLoop_mem_iff]
        constructor
        · rintro (⟨rp, hrp, hrid, hpid⟩ | h)
          · exact absurd hrid (hfresh rp hrp)
          · exact h
        · exact Or.inr
      exact mem_grantCodesOf_iff s rid codes _ hid hl c

/-- A concrete state with a one-entry catalog: workspace w1 owned by owner
member a, custom role r1, permission p1 with code budget.edit. -/
def catState : DBState :=
  { emptyDB with
    workspaces := [⟨"w1", "a"⟩]
    members := [⟨"w1", "a", "owner"⟩]
    workspaceRoles := [⟨"r1", "w1", "R"⟩]
    permissions := [⟨"p1", "budget.edit"⟩] }

/-- C6 counterexample: UpdateRole with the supplied set containing only the
unregistered code bogus succeeds, yet the role's granted permissions end up
empty — not equal to the supplied set as the claim states. -/
theorem updateRole_unknown_code_not_granted_cex :
    (updateRole auditCexState "a" "r1" none (some ["bogus"])).2 = none ∧
      roleGrantCodes (updateRole auditCexState "a" "r1" none (some ["bogus"])).1 "r1" =
        [] := by
  constructor <;> rfl

/-- C6 amended: when UpdateRole is called with a permissionCodes argument
whose looked-up ids are free of repeats, it succeeds and performs a full
replace: afterwards the role is granted exactly the supplied codes that are
registered in the catalog (independent of the previous grant set); and every
failing UpdateRole call leaves the whole state unchanged (delete plus insert
happen in one transaction). -/
theorem updateRole_full_replace_within_catalog
    (s : DBState) (p rid : String) (codes : List String)
    (hid : (s.permissions.map (fun q => q.id)).Nodup)
    (hnd : (codes.filterMap (lookupPermId s)).Nodup)
    (hadm : roleAdminOk s p rid = true) :
    ((updateRole s p rid none (some codes)).2 = none ∧
      ∀ c, c ∈ roleGrantCodes (updateRole s p rid none (some codes)).1 rid ↔
        (c ∈ codes ∧ c ∈ catalogCodes s)) ∧
    (∀ (nm : Option String) (cs : Option (List String)),
      (updateRole s p rid nm cs).2 ≠ none → (updateRole s p rid nm cs).1 = s) :=
  ⟨updateRole_replace_spec s p rid codes hid hnd hadm,
    fun nm cs => updateRole_error_keeps_state s p rid nm cs⟩

/-- Witness for the amended C6 theorem at a concrete state: the call succeeds,
the registered code budget.edit is granted, and the unregistered code bogus
is not. -/
theorem updateRole_full_replace_within_catalog_witness :
    (updateRole catState "a" "r1" none (some ["budget.edit", "bogus"])).2 = none ∧
      ("budget.edit" ∈ roleGrantCodes
          (updateRole catState "a" "r1" none (some ["budget.edit", "bogus"])).1 "r1" ↔
        ("budget.edit" ∈ ["budget.edit", "bogus"] ∧
          "budget.edit" ∈ catalogCodes catState)) ∧
      ("bogus" ∈ roleGrantCodes
          (updateRole catState "a" "r1" none (some ["budget.edit", "bogus"])).1 "r1" ↔
        ("bogus" ∈ ["budget.edit", "bogus"] ∧ "bogus" ∈ catalogCodes catState)) := by
  have h := updateRole_full_replace_within_catalog catState "a" "r1"
    ["budget.edit", "bogus"] (by decide) (by decide) (by decide)
  exact ⟨h.1.1, h.1.2 "budget.edit", h.1.2 "bogus"⟩

/-- C10 counterexample: UpdateRole with a supplied list repeating one catalog
code fails with 500 (the plain INSERT hits UNIQUE(role_id, permission_id))
and changes nothing, so the resulting grant set is empty rather than the
intersection with the catalog, and an error is produced. -/
theorem updateRole_duplicate_code_errors_cex :
    (updateRole catState "a" "r1" none
        (some ["budget.edit", "budget.edit"])).2 = some 500 ∧
      (updateRole catState "a" "r1" none
        (some ["budget.edit", "budget.edit"])).1 = catState ∧
      roleGrantCodes catState "r1" = [] := by
  refine ⟨rfl, rfl, rfl⟩

/-- C10 amended: unregistered codes are silently dropped. A successful
CreateRole of a fresh role grants exactly the requested codes that are in the
catalog, for every requested list (repeats are absorbed by ON CONFLICT DO
NOTHING); UpdateRole does the same and raises no error provided the requested
list does not repeat a catalog code (a repeat aborts the whole call). -/
theorem grant_set_is_intersection_with_catalog
    (s : DBState) (p w n rid : String) (codes : List String)
    (hid : (s.permissions.map (fun q => q.id)).Nodup) :
    ((createRole s p w n rid codes true).2 = none →
      (∀ rp ∈ s.rolePermissions, ¬ rp.roleId = rid) →
      ∀ c, c ∈ roleGrantCodes (createRole s p w n rid codes true).1 rid ↔
        (c ∈ codes ∧ c ∈ catalogCodes s)) ∧
    ((codes.filterMap (lookupPermId s)).Nodup →
      roleAdminOk s p rid = true →
      (updateRole s p rid none (some codes)).2 = none ∧
        ∀ c, c ∈ roleGrantCodes (updateRole s p rid none (some codes)).1 rid ↔
          (c ∈ codes ∧ c ∈ catalogCodes s)) := by
  constructor
  · intro hsucc hfresh
    exact createRole_grants_spec s p w n rid codes hid hfresh hsucc
  · intro hnd hadm
    exact updateRole_replace_spec s p rid codes hid hnd hadm

/-- Witness for the amended C10 theorem at a concrete state: a CreateRole
requesting a registered code, an unregistered code and a repeat grants
exactly the registered code. -/
theorem grant_set_is_intersection_with_catalog_witness :
    ("budget.edit" ∈ roleGrantCodes (createRole catState "a" "w1" "R2" "r2"
        ["budget.edit", "bogus", "budget.edit"] true).1 "r2" ↔
      ("budget.edit" ∈ ["budget.edit", "bogus", "budget.edit"] ∧
        "budget.edit" ∈ catalogCodes catState)) ∧
    ("bogus" ∈ roleGrantCodes (createRole catState "a" "w1" "R2" "r2"
        ["budget.edit", "bogus", "budget.edit"] true).1 "r2" ↔
      ("bogus" ∈ ["budget.edit", "bogus", "budget.edit"] ∧
        "bogus" ∈ catalogCodes catState)) := by
  have h := (grant_set_is_intersection_with_catalog catState "a" "w1" "R2" "r2"
    ["budget.edit", "bogus", "budget.edit"] (by decide)).1 (by decide)
    (by simp [catState, emptyDB])
  exact ⟨h "budget.edit", h "bogus"⟩

theorem deleteRole_success_state (s : DBState) (performer roleId : String)
    (h : (deleteRole s performer roleId).2 = none) :
    deleteRole s performer roleId =
      ({ s with
        workspaceRoles := s.workspaceRoles.filter (fun r => !(r.id == roleId))
        rolePermissions := s.rolePermissions.filter (fun rp => !(rp.roleId == roleId))
        userRoles := s.userRoles.filter (fun ur => !(ur.roleId == roleId)) }, none) := by
  unfold deleteRole at h ⊢
  split_ifs at h ⊢ with h1
  rfl

theorem filter_not_filter {α : Type} (l : List α) (q : α → Bool) :
    (l.filter (fun x => !(q x))).filter q = [] := by
  rw [List.eq_nil_iff_forall_not_mem]
  intro x hx
  rw [List.mem_filter, List.mem_filter] at hx
  obtain ⟨⟨_, hnq⟩, hq⟩ := hx
  rw [hq] at hnq
  simp at hnq

/-- C7: a successful DeleteRole removes the workspace_roles row and, through
the schema's ON DELETE CASCADE, every role_permissions and user_roles row of
the role; consequently a principal whose membership is neither owner nor
admin and whose every grant of the code went through that role is afterwards
denied the code at the workspace level. -/
theorem deleteRole_cascades_revokes_permission
    (s : DBState) (performer roleId userId wsId code r : String)
    (hrole : findMemberRole s wsId userId = some r)
    (hNotOwner : r ≠ "owner") (hNotAdmin : r ≠ "admin")
    (honly : ∀ x ∈ grantRows s userId wsId code, x.1.roleId = roleId)
    (hsucc : (deleteRole s performer roleId).2 = none) :
    (deleteRole s performer roleId).1.workspaceRoles.filter
      (fun r2 => r2.id == roleId) = [] ∧
    (deleteRole s performer roleId).1.rolePermissions.filter
      (fun rp => rp.roleId == roleId) = [] ∧
    (deleteRole s performer roleId).1.userRoles.filter
      (fun ur => ur.roleId == roleId) = [] ∧
    checkPermission (deleteRole s performer roleId).1 userId wsId code =
      .denyNoPermission := by
  have hstate := deleteRole_success_state s performer roleId hsucc
  rw [hstate]
  refine ⟨filter_not_filter _ _, filter_not_filter _ _, filter_not_filter _ _, ?_⟩
  set dstate : DBState :=
    { s with
      workspaceRoles := s.workspaceRoles.filter (fun r => !(r.id == roleId))
      rolePermissions := s.rolePermissions.filter (fun rp => !(rp.roleId == roleId))
      userRoles := s.userRoles.filter (fun ur => !(ur.roleId == roleId)) } with hd
  have hrole2 : findMemberRole dstate wsId userId = some r := hrole
  have hadm : isAdminRole r = false := by
    unfold isAdminRole
    rw [Bool.or_eq_false_iff]
    exact ⟨beq_eq_false_iff_ne.mpr hNotOwner, beq_eq_false_iff_ne.mpr hNotAdmin⟩
  have hempty : grantRows dstate userId wsId code = [] := by
    rw [List.eq_nil_iff_forall_not_mem]
    intro x hx
    simp only [grantRows, hd, List.mem_flatMap, List.mem_map, List.mem_filter,
      Bool.and_eq_true, beq_iff_eq, Bool.not_eq_eq_eq_not, Bool.not_true] at hx
    obtain ⟨ur, ⟨⟨hur, hurR⟩, huru, hurw⟩, rp, ⟨⟨hrp, _⟩, hrpr⟩, p, ⟨hp, hpi, hpc⟩, hxx⟩ := hx
    have hmem : x ∈ grantRows s userId wsId code := by
      simp only [grantRows, List.mem_flatMap, List.mem_map, List.mem_filter,
        Bool.and_eq_true, beq_iff_eq]
      exact ⟨ur, ⟨hur, huru, hurw⟩, rp, ⟨hrp, hrpr⟩, p, ⟨hp, hpi, hpc⟩, hxx⟩
    have hrid := honly x hmem
    rw [← hxx] at hrid
    rw [show ((ur, rp, p) : UserRole × RolePermission × PermissionRow).1 = ur from rfl]
      at hrid
    rw [hrid] at hurR
    simp at hurR
  unfold checkPermission
  rw [hrole2]
  show (if isAdminRole r = true then WsDecision.allow
    else if 0 < (grantRows dstate userId wsId code).length then WsDecision.allow
    else WsDecision.denyNoPermission) = WsDecision.denyNoPermission
  rw [hadm, hempty]
  simp

/-- A concrete state for the cascade witness: member u of w1 holds the code
budget.edit only through custom role r1. -/
def c7State : DBState :=
  { emptyDB with
    workspaces := [⟨"w1", "a"⟩]
    members := [⟨"w1", "a", "owner"⟩, ⟨"w1", "u", "member"⟩]
    permissions := [⟨"p1", "budget.edit"⟩]
    workspaceRoles := [⟨"r1", "w1", "R"⟩]
    rolePermissions := [⟨"r1", "p1"⟩]
    userRoles := [⟨"u", "w1", "r1"⟩] }

/-- Witness for the C7 theorem at a concrete state: after owner a deletes
role r1, no row of the role remains and member u is denied budget.edit. -/
theorem deleteRole_cascades_revokes_permission_witness :
    (deleteRole c7State "a" "r1").1.workspaceRoles.filter
      (fun r2 => r2.id == "r1") = [] ∧
    (deleteRole c7State "a" "r1").1.rolePermissions.filter
      (fun rp => rp.roleId == "r1") = [] ∧
    (deleteRole c7State "a" "r1").1.userRoles.filter
      (fun ur => ur.roleId == "r1") = [] ∧
    checkPermission (deleteRole c7State "a" "r1").1 "u" "w1" "budget.edit" =
      .denyNoPermission :=
  deleteRole_cascades_revokes_permission c7State "a" "r1" "u" "w1" "budget.edit"
    "member" (by decide) (by decide) (by decide) (by decide) (by decide)

/-- Number of board_permissions rows carrying a given (board, user) key. -/
def bpKeyCount (l : List BoardPermission) (b u : String) : Nat :=
  l.countP (fun bp => bp.boardId == b && bp.userId == u)

/-- UNIQUE(board_id, user_id): at most one row per key. -/
def bpUniqueL (l : List BoardPermission) : Prop :=
  ∀ b u, bpKeyCount l b u ≤ 1

/-- The board_permissions table of the state satisfies its unique key. -/
def bpUnique (s : DBState) : Prop :=
  bpUniqueL s.boardPermissions

theorem setBoardPermission_error_keeps (s : DBState) (p b u l : String) :
    (setBoardPermission s p b u l).2 ≠ none → (setBoardPermission s p b u l).1 = s := by
  unfold setBoardPermission
  split
  · intro _
    rfl
  · dsimp only
    split_ifs with hacc hex
    · intro _
      rfl
    · intro hne
      exact absurd rfl hne
    · intro hne
      exact absurd rfl hne

theorem setBoardPermission_success_rows (s : DBState) (p b u l : String)
    (h : (setBoardPermission s p b u l).2 = none) :
    (∀ bp ∈ (setBoardPermission s p b u l).1.boardPermissions,
      bp.boardId = b → bp.userId = u → bp.level = l) ∧
    ((setBoardPermission s p b u l).1.boardPermissions.any
      (fun bp => bp.boardId == b && bp.userId == u)) = true := by
  unfold setBoardPermission at h ⊢
  cases hb : (s.boards.filter (fun bd => bd.id == b)).head? with
  | none =>
    rw [hb] at h
    simp at h
  | some board =>
    rw [hb] at h
    dsimp only at h ⊢
    split_ifs at h ⊢ with hacc hex
    · constructor
      · intro bp hbp hb1 hu1
        dsimp only at hbp
        rw [List.mem_map] at hbp
        obtain ⟨bp0, hbp0, heq⟩ := hbp
        by_cases hkey : (bp0.boardId == b && bp0.userId == u) = true
        · rw [if_pos hkey] at heq
          rw [← heq]
        · rw [if_neg hkey] at heq
          rw [← heq] at hb1 hu1
          have hkey2 : (bp0.boardId == b && bp0.userId == u) = true := by
            rw [Bool.and_eq_true, beq_iff_eq, beq_iff_eq]
            exact ⟨hb1, hu1⟩
          exact absurd hkey2 hkey
      · dsimp only
        rw [List.any_eq_true] at hex ⊢
        obtain ⟨bp0, hbp0, hkey⟩ := hex
        refine ⟨{ bp0 with level := l }, ?_, hkey⟩
        rw [List.mem_map]
        exact ⟨bp0, hbp0, by rw [if_pos hkey]⟩
    · constructor
      · intro bp hbp hb1 hu1
        dsimp only at hbp
        rw [List.mem_append] at hbp
        cases hbp with
        | inl hold =>
          have hkey2 : (bp.boardId == b && bp.userId == u) = true := by
            rw [Bool.and_eq_true, beq_iff_eq, beq_iff_eq]
            exact ⟨hb1, hu1⟩
          exact absurd (List.any_eq_true.mpr ⟨bp, hold, hkey2⟩) hex
        | inr hone =>
          rw [List.mem_singleton] at hone
          rw [hone]
      · dsimp only
        rw [List.any_eq_true]
        exact ⟨⟨b, u, l⟩, List.mem_append_right _ (List.mem_singleton_self _), by simp⟩

/-- Calling the board-permission upsert on a state whose (board, user) rows
already exist and already carry the requested level changes nothing. -/
theorem setBoardPermission_fixed (s : DBState) (p b u l : String)
    (hrows : ∀ bp ∈ s.boardPermissions, bp.boardId = b → bp.userId = u → bp.level = l)
    (hex : (s.boardPermissions.any (fun bp => bp.boardId == b && bp.userId == u)) = true) :
    (setBoardPermission s p b u l).1 = s := by
  unfold setBoardPermission
  cases hb : (s.boards.filter (fun bd => bd.id == b)).head? with
  | none => rfl
  | some board =>
    dsimp only
    rw [if_pos hex]
    split
    · rfl
    · have hmap : s.boardPermissions.map (fun bp =>
          if bp.boardId == b && bp.userId == u then { bp with level := l } else bp) =
          s.boardPermissions := by
        conv_rhs => rw [← List.map_id s.boardPermissions]
        apply List.map_congr_left
        intro bp hbp
        split_ifs with hkey
        · rw [Bool.and_eq_true, beq_iff_eq, beq_iff_eq] at hkey
          have hlv := hrows bp hbp hkey.1 hkey.2
          cases bp
          simp only [id]
          simp only at hlv
          rw [hlv]
        · rfl
      rw [hmap]

theorem setBoardPermission_bpUnique (s : DBState) (p b0 u0 l : String)
    (h : bpUnique s) : bpUnique (setBoardPermission s p b0 u0 l).1 := by
  unfold setBoardPermission
  split
  · exact h
  · dsimp only
    split_ifs with hacc hex
    · exact h
    · intro b u
      unfold bpKeyCount
      rw [show ({ s with boardPermissions := s.boardPermissions.map (fun bp =>
          if bp.boardId == b0 && bp.userId == u0 then { bp with level := l } else bp) } :
            DBState).boardPermissions =
          s.boardPermissions.map (fun bp =>
            if bp.boardId == b0 && bp.userId == u0 then { bp with level := l } else bp)
        from rfl]
      rw [List.countP_map]
      have hcong : s.boardPermissions.countP ((fun bp =>
          bp.boardId == b && bp.userId == u) ∘ (fun bp =>
            if bp.boardId == b0 && bp.userId == u0 then { bp with level := l } else bp)) =
          s.boardPermissions.countP (fun bp => bp.boardId == b && bp.userId == u) := by
        apply List.countP_congr
        intro bp _
        simp only [Function.comp]
        split_ifs with hkey
        · rfl
        · rfl
      rw [hcong]
      exact h b u
    · intro b u
      unfold bpKeyCount
      rw [show ({ s with boardPermissions :=
          s.boardPermissions ++ [⟨b0, u0, l⟩] } : DBState).boardPermissions =
          s.boardPermissions ++ [⟨b0, u0, l⟩] from rfl]
      rw [List.countP_append]
      by_cases hk : (b0 = b ∧ u0 = u)
      · have hzero : s.boardPermissions.countP
            (fun bp => bp.boardId == b && bp.userId == u) = 0 := by
          rw [List.countP_eq_zero]
          intro bp hbp hpred
          apply hex
          rw [List.any_eq_true]
          refine ⟨bp, hbp, ?_⟩
          rw [Bool.and_eq_true, beq_iff_eq, beq_iff_eq] at hpred ⊢
          exact ⟨by rw [hpred.1, hk.1], by rw [hpred.2, hk.2]⟩
        rw [hzero]
        have hle : List.countP (fun bp => bp.boardId == b && bp.userId == u)
            [(⟨b0, u0, l⟩ : BoardPermission)] ≤ 1 := by
          simp only [List.countP_cons, List.countP_nil]
          split_ifs <;> omega
        omega
      · have hone : ([(⟨b0, u0, l⟩ : BoardPermission)]).countP
            (fun bp => bp.boardId == b && bp.userId == u) = 0 := by
          rw [List.countP_eq_zero]
          intro bp hbp hpred
          rw [List.mem_singleton] at hbp
          subst hbp
          rw [Bool.and_eq_true, beq_iff_eq, beq_iff_eq] at hpred
          exact hk hpred
        rw [hone]
        have := h b u
        unfold bpKeyCount at this
        omega

theorem removeBoardPermission_bpUnique (s : DBState) (b0 u0 : String)
    (h : bpUnique s) : bpUnique (removeBoardPermission s b0 u0).1 := by
  intro b u
  unfold bpKeyCount
  have hsub : ((removeBoardPermission s b0 u0).1.boardPermissions).Sublist
      s.boardPermissions := by
    unfold removeBoardPermission
    exact List.filter_sublist s.boardPermissions
  exact le_trans (hsub.countP_le _) (h b u)

theorem createRole_keeps (s : DBState) (p w n rid : String) (codes : List String)
    (ao : Bool) :
    (createRole s p w n rid codes ao).1.members = s.members ∧
    (createRole s p w n rid codes ao).1.workspaces = s.workspaces ∧
    (createRole s p w n rid codes ao).1.boardPermissions = s.boardPermissions := by
  unfold createRole
  split_ifs <;> exact ⟨rfl, rfl, rfl⟩

theorem updateRole_keeps (s : DBState) (p rid : String) (nm : Option String)
    (cs : Option (List String)) :
    (updateRole s p rid nm cs).1.members = s.members ∧
    (updateRole s p rid nm cs).1.workspaces = s.workspaces ∧
    (updateRole s p rid nm cs).1.boardPermissions = s.boardPermissions := by
  unfold updateRole
  split_ifs with h1 h2
  · exact ⟨rfl, rfl, rfl⟩
  · exact ⟨rfl, rfl, rfl⟩
  · cases cs with
    | none => exact ⟨rfl, rfl, rfl⟩
    | some codes =>
      cases hl : updateGrantsLoop s rid codes
          (s.rolePermissions.filter (fun rp => !(rp.roleId == rid))) with
      | none => simp [hl]
      | some g => simp [hl]

theorem deleteRole_keeps (s : DBState) (p rid : String) :
    (deleteRole s p rid).1.members = s.members ∧
    (deleteRole s p rid).1.workspaces = s.workspaces ∧
    (deleteRole s p rid).1.boardPermissions = s.boardPermissions := by
  unfold deleteRole
  split_ifs <;> exact ⟨rfl, rfl, rfl⟩

theorem assignRole_keeps (s : DBState) (p t w rid : String) :
    (assignRole s p t w rid).1.members = s.members ∧
    (assignRole s p t w rid).1.workspaces = s.workspaces ∧
    (assignRole s p t w rid).1.boardPermissions = s.boardPermissions := by
  unfold assignRole
  split_ifs <;> exact ⟨rfl, rfl, rfl⟩

theorem addGroupMember_keeps (s : DBState) (g u : String) :
    (addGroupMember s g u).1.members = s.members ∧
    (addGroupMember s g u).1.workspaces = s.workspaces ∧
    (addGroupMember s g u).1.boardPermissions = s.boardPermissions := by
  unfold addGroupMember
  split_ifs <;> exact ⟨rfl, rfl, rfl⟩

theorem removeGroupMember_keeps (s : DBState) (g u : String) :
    (removeGroupMember s g u).1.members = s.members ∧
    (removeGroupMember s g u).1.workspaces = s.workspaces ∧
    (removeGroupMember s g u).1.boardPermissions = s.boardPermissions :=
  ⟨rfl, rfl, rfl⟩

theorem setBoardPermission_keeps (s : DBState) (p b u l : String) :
    (setBoardPermission s p b u l).1.members = s.members ∧
    (setBoardPermission s p b u l).1.workspaces = s.workspaces := by
  unfold setBoardPermission
  split
  · exact ⟨rfl, rfl⟩
  · dsimp only
    split
    · exact ⟨rfl, rfl⟩
    · exact ⟨rfl, rfl⟩

theorem removeBoardPermission_keeps (s : DBState) (b u : String) :
    (removeBoardPermission s b u).1.members = s.members ∧
    (removeBoardPermission s b u).1.workspaces = s.workspaces :=
  ⟨rfl, rfl⟩

theorem createWorkspace_keeps (s : DBState) (creator wsId : String) :
    (createWorkspace s creator wsId).1.boardPermissions = s.boardPermissions := by
  unfold createWorkspace
  split_ifs <;> rfl

theorem addMember_keeps (s : DBState) (p wsId newUser role : String) :
    (addMember s p wsId newUser role).1.boardPermissions = s.boardPermissions := by
  unfold addMember
  split
  · rfl
  · split_ifs <;> rfl

theorem updateMemberRole_keeps (s : DBState) (p wsId target newRole : String) :
    (updateMemberRole s p wsId target newRole).1.boardPermissions =
      s.boardPermissions := by
  unfold updateMemberRole
  split
  · rfl
  · split_ifs with h1 h2
    · rfl
    · rfl
    · split
      · rfl
      · split_ifs with h3 <;> rfl

theorem removeMember_keeps (s : DBState) (p wsId target : String) :
    (removeMember s p wsId target).1.boardPermissions = s.boardPermissions := by
  unfold removeMember
  split
  · rfl
  · split_ifs with h1 h2
    · rfl
    · split
      · rfl
      · split_ifs with h4 <;> rfl
    · split
      · rfl
      · split_ifs with h4 <;> rfl

theorem transferOwnership_keeps (s : DBState) (p wsId newOwner : String) :
    (transferOwnership s p wsId newOwner).1.boardPermissions =
      s.boardPermissions := by
  unfold transferOwnership
  split
  · rfl
  · split_ifs with h1 h2 <;> rfl

/-- UNIQUE(board_id, user_id) holds in every state reachable through the
modelled routes. -/
theorem reachable_bpUnique (s : DBState) (h : Reachable s) : bpUnique s := by
  induction h with
  | init => intro b u; exact Nat.zero_le 1
  | createWs s0 creator wsId _ ih =>
    unfold bpUnique
    rw [createWorkspace_keeps s0 creator wsId]
    exact ih
  | addMem s0 p wsId newUser role _ ih =>
    unfold bpUnique
    rw [addMember_keeps s0 p wsId newUser role]
    exact ih
  | updateMemRole s0 p wsId target newRole _ ih =>
    unfold bpUnique
    rw [updateMemberRole_keeps s0 p wsId target newRole]
    exact ih
  | removeMem s0 p wsId target _ ih =>
    unfold bpUnique
    rw [removeMember_keeps s0 p wsId target]
    exact ih
  | transferOwn s0 p wsId newOwner _ ih =>
    unfold bpUnique
    rw [transferOwnership_keeps s0 p wsId newOwner]
    exact ih
  | createR s0 p w n rid codes ao _ ih =>
    unfold bpUnique
    rw [(createRole_keeps s0 p w n rid codes ao).2.2]
    exact ih
  | updateR s0 p rid nm cs _ ih =>
    unfold bpUnique
    rw [(updateRole_keeps s0 p rid nm cs).2.2]
    exact ih
  | deleteR s0 p rid _ ih =>
    unfold bpUnique
    rw [(deleteRole_keeps s0 p rid).2.2]
    exact ih
  | assignR s0 p t w rid _ ih =>
    unfold bpUnique
    rw [(assignRole_keeps s0 p t w rid).2.2]
    exact ih
  | setBP s0 p b u l _ ih =>
    exact setBoardPermission_bpUnique s0 p b u l ih
  | removeBP s0 b u _ ih =>
    exact removeBoardPermission_bpUnique s0 b u ih
  | addGM s0 g u _ ih =>
    unfold bpUnique
    rw [(addGroupMember_keeps s0 g u).2.2]
    exact ih
  | removeGM s0 g u _ ih =>
    unfold bpUnique
    rw [(removeGroupMember_keeps s0 g u).2.2]
    exact ih

theorem setBoardPermission_success_count (s : DBState) (p b u l : String)
    (hu : bpUnique s) (h : (setBoardPermission s p b u l).2 = none) :
    bpKeyCount (setBoardPermission s p b u l).1.boardPermissions b u = 1 := by
  have hle : bpKeyCount (setBoardPermission s p b u l).1.boardPermissions b u ≤ 1 :=
    setBoardPermission_bpUnique s p b u l hu b u
  have hex := (setBoardPermission_success_rows s p b u l h).2
  rw [List.any_eq_true] at hex
  obtain ⟨bp, hbp, hkey⟩ := hex
  have hpos : 0 < bpKeyCount (setBoardPermission s p b u l).1.boardPermissions b u := by
    unfold bpKeyCount
    rw [List.countP_pos_iff]
    exact ⟨bp, hbp, hkey⟩
  omega

/-- C8: SetOverride for boards has upsert semantics. In every reachable state
at most one board_permissions row exists per (board, user) key; repeating the
call with identical arguments leaves the state exactly as after the first
call; and after a successful call exactly one row carries the key, and every
row with that key carries the requested level. -/
theorem setOverride_upsert_idempotent :
    (∀ s : DBState, Reachable s → bpUnique s) ∧
    (∀ (s : DBState) (p b u l : String),
      (setBoardPermission (setBoardPermission s p b u l).1 p b u l).1 =
        (setBoardPermission s p b u l).1) ∧
    (∀ (s : DBState) (p b u l : String), bpUnique s →
      (setBoardPermission s p b u l).2 = none →
      bpKeyCount (setBoardPermission s p b u l).1.boardPermissions b u = 1 ∧
      ∀ bp ∈ (setBoardPermission s p b u l).1.boardPermissions,
        bp.boardId = b → bp.userId = u → bp.level = l) := by
  refine ⟨reachable_bpUnique, ?_, ?_⟩
  · intro s p b u l
    by_cases h1 : (setBoardPermission s p b u l).2 = none
    · obtain ⟨hrows, hex⟩ := setBoardPermission_success_rows s p b u l h1
      exact setBoardPermission_fixed (setBoardPermission s p b u l).1 p b u l hrows hex
    · have hkeep := setBoardPermission_error_keeps s p b u l h1
      rw [hkeep]
      exact hkeep
  · intro s p b u l hu h
    exact ⟨setBoardPermission_success_count s p b u l hu h,
      (setBoardPermission_success_rows s p b u l h).1⟩

/-- A concrete state with a board for the upsert witness. -/
def boardState : DBState :=
  { emptyDB with
    workspaces := [⟨"w1", "a"⟩]
    members := [⟨"w1", "a", "owner"⟩]
    boards := [⟨"b1", "w1"⟩] }

/-- Witness for the C8 theorem: the invariant holds at the reachable empty
state, a repeated concrete upsert leaves the state of the first call, and the
successful concrete upsert leaves exactly one row for the key. -/
theorem setOverride_upsert_idempotent_witness :
    bpUnique emptyDB ∧
    (setBoardPermission (setBoardPermission boardState "a" "b1" "u" "edit").1
        "a" "b1" "u" "edit").1 =
      (setBoardPermission boardState "a" "b1" "u" "edit").1 ∧
    bpKeyCount (setBoardPermission boardState "a" "b1" "u" "edit").1.boardPermissions
      "b1" "u" = 1 :=
  ⟨setOverride_upsert_idempotent.1 emptyDB Reachable.init,
    setOverride_upsert_idempotent.2.1 boardState "a" "b1" "u" "edit",
    (setOverride_upsert_idempotent.2.2 boardState "a" "b1" "u" "edit"
      (fun b u => Nat.zero_le 1) (by decide)).1⟩

theorem countP_and_split {α : Type} (l : List α) (p q : α → Bool) :
    l.countP p =
      l.countP (fun a => p a && q a) + l.countP (fun a => p a && !(q a)) := by
  induction l with
  | nil => rfl
  | cons a t ih =>
    simp only [List.countP_cons]
    cases hp : p a <;> cases hq : q a <;> simp [hp, hq] <;> omega

theorem countP_or_le {α : Type} (l : List α) (p q : α → Bool) :
    l.countP (fun a => p a || q a) ≤ l.countP p + l.countP q := by
  induction l with
  | nil => simp
  | cons a t ih =>
    simp only [List.countP_cons]
    cases hp : p a <;> cases hq : q a <;> simp [hp, hq] <;> omega

theorem findMemberRole_some (s : DBState) (wsId u r : String)
    (h : findMemberRole s wsId u = some r) :
    ∃ m ∈ s.members, m.workspaceId = wsId ∧ m.userId = u ∧ m.role = r := by
  unfold findMemberRole at h
  cases hh : (s.members.filter (fun m => m.workspaceId == wsId && m.userId == u)).head? with
  | none =>
    rw [hh] at h
    simp at h
  | some m =>
    rw [hh] at h
    simp only [Option.map_some', Option.some_inj] at h
    have hm : m ∈ s.members.filter (fun m => m.workspaceId == wsId && m.userId == u) :=
      List.mem_of_mem_head? (by simp [hh])
    rw [List.mem_filter, Bool.and_eq_true, beq_iff_eq, beq_iff_eq] at hm
    exact ⟨m, hm.1, hm.2.1, hm.2.2, h⟩

/-- The combined effect of the two sequential role UPDATEs of the ownership
transfer on one membership row. -/
def transferRoleMap (wsId performer newOwner : String) (m : Membership) : Membership :=
  if m.workspaceId == wsId && m.userId == performer then { m with role := "admin" }
  else if m.workspaceId == wsId && m.userId == newOwner then { m with role := "owner" }
  else m

theorem transferRoleMap_eq (wsId performer newOwner : String) (m : Membership) :
    (if (if m.workspaceId == wsId && m.userId == newOwner then
          { m with role := "owner" } else m).workspaceId == wsId &&
        (if m.workspaceId == wsId && m.userId == newOwner then
          { m with role := "owner" } else m).userId == performer then
      { (if m.workspaceId == wsId && m.userId == newOwner then
          { m with role := "owner" } else m) with role := "admin" }
    else (if m.workspaceId == wsId && m.userId == newOwner then
      { m with role := "owner" } else m)) =
    transferRoleMap wsId performer newOwner m := by
  unfold transferRoleMap
  by_cases h1 : (m.workspaceId == wsId && m.userId == newOwner) = true
  · rw [if_pos h1]
  · rw [if_neg h1]

theorem transferRoleMap_ws (wsId performer newOwner : String) (m : Membership) :
    (transferRoleMap wsId performer newOwner m).workspaceId = m.workspaceId := by
  unfold transferRoleMap
  split_ifs <;> rfl

theorem transferRoleMap_user (wsId performer newOwner : String) (m : Membership) :
    (transferRoleMap wsId performer newOwner m).userId = m.userId := by
  unfold transferRoleMap
  split_ifs <;> rfl

theorem transferRoleMap_id_of_ws (wsId performer newOwner : String) (m : Membership)
    (h : (m.workspaceId == wsId) = false) :
    transferRoleMap wsId performer newOwner m = m := by
  unfold transferRoleMap
  rw [h]
  simp

/-- The member rows after a successful transfer are the original rows mapped
through transferRoleMap. -/
theorem transferOwnership_members (s : DBState) (performer wsId newOwner : String) :
    ((s.members.map (fun m =>
      if m.workspaceId == wsId && m.userId == newOwner then { m with role := "owner" }
      else m)).map (fun m =>
        if m.workspaceId == wsId && m.userId == performer then { m with role := "admin" }
        else m)) =
      s.members.map (transferRoleMap wsId performer newOwner) := by
  rw [List.map_map]
  apply List.map_congr_left
  intro m _
  exact transferRoleMap_eq wsId performer newOwner m

/-- Number of member rows of a workspace holding the built-in owner role. -/
def ownerCount (ms : List Membership) (wsId : String) : Nat :=
  ms.countP (fun m => m.workspaceId == wsId && m.role == "owner")

/-- Number of member rows for one (workspace, user) key. -/
def memberRowCount (ms : List Membership) (wsId u : String) : Nat :=
  ms.countP (fun m => m.workspaceId == wsId && m.userId == u)

/-- Every member row references an existing workspace (the foreign key). -/
def membersFK (ws : List Workspace) (ms : List Membership) : Prop :=
  ∀ m ∈ ms, ∃ w ∈ ws, w.id = m.workspaceId

/-- The membership invariants: at most one owner-role row per workspace, at
most one row per (workspace, user), and the foreign key into workspaces. -/
def MemberInvL (ws : List Workspace) (ms : List Membership) : Prop :=
  (∀ wsId, ownerCount ms wsId ≤ 1) ∧
  (∀ wsId u, memberRowCount ms wsId u ≤ 1) ∧ membersFK ws ms

theorem singleton_countP_le {α : Type} (a : α) (p : α → Bool) :
    List.countP p [a] ≤ 1 := by
  simp only [List.countP_cons, List.countP_nil]
  split_ifs <;> omega

theorem singleton_countP_zero {α : Type} (a : α) (p : α → Bool) (h : p a = false) :
    List.countP p [a] = 0 := by
  simp only [List.countP_cons, List.countP_nil, h]
  simp

theorem createWorkspace_inv (s : DBState) (creator wsId : String)
    (h : MemberInvL s.workspaces s.members) :
    MemberInvL (createWorkspace s creator wsId).1.workspaces
      (createWorkspace s creator wsId).1.members := by
  obtain ⟨hown, hrow, hfk⟩ := h
  unfold createWorkspace
  split_ifs with hex
  · exact ⟨hown, hrow, hfk⟩
  · have hnomem : ∀ m ∈ s.members, ¬ m.workspaceId = wsId := by
      intro m hm heq
      obtain ⟨w, hw, hwid⟩ := hfk m hm
      apply hex
      rw [List.any_eq_true]
      exact ⟨w, hw, by rw [beq_iff_eq, hwid, heq]⟩
    refine ⟨?_, ?_, ?_⟩
    · intro w0
      show ownerCount (s.members ++ [⟨wsId, creator, "owner"⟩]) w0 ≤ 1
      unfold ownerCount
      rw [List.countP_append]
      by_cases hw0 : w0 = wsId
      · subst hw0
        have h0 : s.members.countP (fun m => m.workspaceId == w0 && m.role == "owner")
            = 0 := by
          rw [List.countP_eq_zero]
          intro m hm hpred
          rw [Bool.and_eq_true, beq_iff_eq] at hpred
          exact hnomem m hm hpred.1
        rw [h0]
        have := singleton_countP_le (⟨w0, creator, "owner"⟩ : Membership)
          (fun m => m.workspaceId == w0 && m.role == "owner")
        omega
      · have h1 : ([(⟨wsId, creator, "owner"⟩ : Membership)]).countP
            (fun m => m.workspaceId == w0 && m.role == "owner") = 0 := by
          apply singleton_countP_zero
          rw [Bool.eq_false_iff]
          intro hpred
          rw [Bool.and_eq_true, beq_iff_eq] at hpred
          exact hw0 hpred.1.symm
        rw [h1]
        have := hown w0
        unfold ownerCount at this
        omega
    · intro w0 u
      show memberRowCount (s.members ++ [⟨wsId, creator, "owner"⟩]) w0 u ≤ 1
      unfold memberRowCount
      rw [List.countP_append]
      by_cases hk : (w0 = wsId ∧ u = creator)
      · obtain ⟨hk1, hk2⟩ := hk
        subst hk1
        subst hk2
        have h0 : s.members.countP (fun m => m.workspaceId == w0 && m.userId == u)
            = 0 := by
          rw [List.countP_eq_zero]
          intro m hm hpred
          rw [Bool.and_eq_true, beq_iff_eq] at hpred
          exact hnomem m hm hpred.1
        rw [h0]
        have := singleton_countP_le (⟨w0, u, "owner"⟩ : Membership)
          (fun m => m.workspaceId == w0 && m.userId == u)
        omega
      · have h1 : ([(⟨wsId, creator, "owner"⟩ : Membership)]).countP
            (fun m => m.workspaceId == w0 && m.userId == u) = 0 := by
          apply singleton_countP_zero
          rw [Bool.eq_false_iff]
          intro hpred
          rw [Bool.and_eq_true, beq_iff_eq, beq_iff_eq] at hpred
          exact hk ⟨hpred.1.symm, hpred.2.symm⟩
        rw [h1]
        have := hrow w0 u
        unfold memberRowCount at this
        omega
    · show membersFK (s.workspaces ++ [⟨wsId, creator⟩])
        (s.members ++ [⟨wsId, creator, "owner"⟩])
      intro m hm
      rw [List.mem_append] at hm
      cases hm with
      | inl hold =>
        obtain ⟨w, hw, hwid⟩ := hfk m hold
        exact ⟨w, List.mem_append_left _ hw, hwid⟩
      | inr hone =>
        rw [List.mem_singleton] at hone
        subst hone
        exact ⟨⟨wsId, creator⟩,
          List.mem_append_right _ (List.mem_singleton_self _), rfl⟩

theorem countP_congr_eq {α : Type} {l : List α} {p q : α → Bool}
    (h : ∀ a ∈ l, p a = q a) : l.countP p = l.countP q :=
  List.countP_congr (fun x hx => by rw [h x hx])

theorem validMemberRole_ne_owner (role : String) (h : validMemberRole role = true) :
    (role == "owner") = false := by
  unfold validMemberRole at h
  simp only [Bool.or_eq_true, beq_iff_eq] at h
  rcases h with (h | h) | h <;> subst h <;> decide

theorem addMember_inv (s : DBState) (p wsId newUser role : String)
    (h : MemberInvL s.workspaces s.members) :
    MemberInvL (addMember s p wsId newUser role).1.workspaces
      (addMember s p wsId newUser role).1.members := by
  obtain ⟨hown, hrow, hfk⟩ := h
  unfold addMember
  cases hr : findMemberRole s wsId p with
  | none => exact ⟨hown, hrow, hfk⟩
  | some r =>
    dsimp only
    split_ifs with h1 h2 h3
    · exact ⟨hown, hrow, hfk⟩
    · exact ⟨hown, hrow, hfk⟩
    · exact ⟨hown, hrow, hfk⟩
    · have hvr : validMemberRole role = true := by
        simpa using h2
      have hro := validMemberRole_ne_owner role hvr
      refine ⟨?_, ?_, ?_⟩
      · intro w0
        show ownerCount (s.members ++ [⟨wsId, newUser, role⟩]) w0 ≤ 1
        unfold ownerCount
        rw [List.countP_append]
        have h0 : ([(⟨wsId, newUser, role⟩ : Membership)]).countP
            (fun m => m.workspaceId == w0 && m.role == "owner") = 0 := by
          apply singleton_countP_zero
          show ((wsId == w0) && (role == "owner")) = false
          rw [hro, Bool.and_false]
        rw [h0]
        have := hown w0
        unfold ownerCount at this
        omega
      · intro w0 u
        show memberRowCount (s.members ++ [⟨wsId, newUser, role⟩]) w0 u ≤ 1
        unfold memberRowCount
        rw [List.countP_append]
        by_cases hk : (w0 = wsId ∧ u = newUser)
        · obtain ⟨hk1, hk2⟩ := hk
          subst hk1
          subst hk2
          have h0 : s.members.countP (fun m => m.workspaceId == w0 && m.userId == u)
              = 0 := by
            rw [List.countP_eq_zero]
            intro m hm hpred
            exact h3 (List.any_eq_true.mpr ⟨m, hm, hpred⟩)
          rw [h0]
          have := singleton_countP_le (⟨w0, u, role⟩ : Membership)
            (fun m => m.workspaceId == w0 && m.userId == u)
          omega
        · have h1s : ([(⟨wsId, newUser, role⟩ : Membership)]).countP
              (fun m => m.workspaceId == w0 && m.userId == u) = 0 := by
            apply singleton_countP_zero
            rw [Bool.eq_false_iff]
            intro hpred
            rw [Bool.and_eq_true, beq_iff_eq, beq_iff_eq] at hpred
            exact hk ⟨hpred.1.symm, hpred.2.symm⟩
          rw [h1s]
          have := hrow w0 u
          unfold memberRowCount at this
          omega
      · show membersFK s.workspaces (s.members ++ [⟨wsId, newUser, role⟩])
        intro m hm
        rw [List.mem_append] at hm
        cases hm with
        | inl hold => exact hfk m hold
        | inr hone =>
          rw [List.mem_singleton] at hone
          subst hone
          obtain ⟨m0, hm0, hm0w, _, _⟩ := findMemberRole_some s wsId p r hr
          obtain ⟨w, hw, hwid⟩ := hfk m0 hm0
          exact ⟨w, hw, by rw [hwid, hm0w]⟩

theorem updateMemberRole_inv (s : DBState) (p wsId target newRole : String)
    (h : MemberInvL s.workspaces s.members) :
    MemberInvL (updateMemberRole s p wsId target newRole).1.workspaces
      (updateMemberRole s p wsId target newRole).1.members := by
  obtain ⟨hown, hrow, hfk⟩ := h
  unfold updateMemberRole
  cases hr : findMemberRole s wsId p with
  | none => exact ⟨hown, hrow, hfk⟩
  | some r =>
    dsimp only
    split_ifs with h1 h2
    · exact ⟨hown, hrow, hfk⟩
    · exact ⟨hown, hrow, hfk⟩
    · cases hw : (s.workspaces.filter (fun w => w.id == wsId)).head? with
      | none => exact ⟨hown, hrow, hfk⟩
      | some w =>
        dsimp only
        split_ifs with h3
        · exact ⟨hown, hrow, hfk⟩
        · have hnr : validMemberRole newRole = true := by
            simpa using h2
          have hnro := validMemberRole_ne_owner newRole hnr
          refine ⟨?_, ?_, ?_⟩
          · intro w0
            show ownerCount (s.members.map (fun m =>
              if m.workspaceId == wsId && m.userId == target then
                { m with role := newRole } else m)) w0 ≤ 1
            unfold ownerCount
            rw [List.countP_map]
            have hmono : ∀ m ∈ s.members,
                ((fun m2 : Membership => m2.workspaceId == w0 && m2.role == "owner") ∘
                  (fun m2 => if m2.workspaceId == wsId && m2.userId == target then
                    { m2 with role := newRole } else m2)) m = true →
                (fun m2 : Membership =>
                  m2.workspaceId == w0 && m2.role == "owner") m = true := by
              intro m _ hp
              simp only [Function.comp] at hp
              by_cases hkey : (m.workspaceId == wsId && m.userId == target) = true
              · rw [if_pos hkey] at hp
                rw [show ({ m with role := newRole } : Membership).role = newRole
                  from rfl, hnro, Bool.and_false] at hp
                exact absurd hp (by simp)
              · rwa [if_neg hkey] at hp
            exact le_trans (List.countP_mono_left hmono) (hown w0)
          · intro w0 u
            show memberRowCount (s.members.map (fun m =>
              if m.workspaceId == wsId && m.userId == target then
                { m with role := newRole } else m)) w0 u ≤ 1
            unfold memberRowCount
            rw [List.countP_map]
            have hcong : ∀ m ∈ s.members,
                ((fun m2 : Membership => m2.workspaceId == w0 && m2.userId == u) ∘
                  (fun m2 => if m2.workspaceId == wsId && m2.userId == target then
                    { m2 with role := newRole } else m2)) m =
                (fun m2 : Membership => m2.workspaceId == w0 && m2.userId == u) m := by
              intro m _
              simp only [Function.comp]
              by_cases hkey : (m.workspaceId == wsId && m.userId == target) = true
              · rw [if_pos hkey]
              · rw [if_neg hkey]
            rw [countP_congr_eq hcong]
            exact hrow w0 u
          · show membersFK s.workspaces (s.members.map (fun m2 =>
              if m2.workspaceId == wsId && m2.userId == target then
                { m2 with role := newRole } else m2))
            intro m hm
            rw [List.mem_map] at hm
            obtain ⟨m0, hm0, heq⟩ := hm
            obtain ⟨w2, hw2, hwid⟩ := hfk m0 hm0
            refine ⟨w2, hw2, ?_⟩
            rw [hwid, ← heq]
            by_cases hkey : (m0.workspaceId == wsId && m0.userId == target) = true
            · rw [if_pos hkey]
            · rw [if_neg hkey]

theorem removeMember_inv (s : DBState) (p wsId target : String)
    (h : MemberInvL s.workspaces s.members) :
    MemberInvL (removeMember s p wsId target).1.workspaces
      (removeMember s p wsId target).1.members := by
  obtain ⟨hown, hrow, hfk⟩ := h
  unfold removeMember
  cases hr : findMemberRole s wsId p with
  | none => exact ⟨hown, hrow, hfk⟩
  | some r =>
    dsimp only
    split_ifs with h1 h2
    · exact ⟨hown, hrow, hfk⟩
    · cases hw : (s.workspaces.filter (fun w => w.id == wsId)).head? with
      | none => exact ⟨hown, hrow, hfk⟩
      | some w =>
        dsimp only
        split_ifs with h3
        · exact ⟨hown, hrow, hfk⟩
        · exact ⟨hown, hrow, hfk⟩
    · cases hw : (s.workspaces.filter (fun w => w.id == wsId)).head? with
      | none => exact ⟨hown, hrow, hfk⟩
      | some w =>
        dsimp only
        split_ifs with h3
        · exact ⟨hown, hrow, hfk⟩
        · refine ⟨?_, ?_, ?_⟩
          · intro w0
            show ownerCount (s.members.filter (fun m =>
              !(m.workspaceId == wsId && m.userId == target))) w0 ≤ 1
            unfold ownerCount
            exact le_trans ((List.filter_sublist _).countP_le _) (hown w0)
          · intro w0 u
            show memberRowCount (s.members.filter (fun m =>
              !(m.workspaceId == wsId && m.userId == target))) w0 u ≤ 1
            unfold memberRowCount
            exact le_trans ((List.filter_sublist _).countP_le _) (hrow w0 u)
          · show membersFK s.workspaces (s.members.filter (fun m =>
              !(m.workspaceId == wsId && m.userId == target)))
            intro m hm
            rw [List.mem_filter] at hm
            exact hfk m hm.1

theorem transferOwnership_inv (s : DBState) (p wsId newOwner : String)
    (h : MemberInvL s.workspaces s.members) :
    MemberInvL (transferOwnership s p wsId newOwner).1.workspaces
      (transferOwnership s p wsId newOwner).1.members := by
  obtain ⟨hown, hrow, hfk⟩ := h
  unfold transferOwnership
  cases hr : findMemberRole s wsId p with
  | none => exact ⟨hown, hrow, hfk⟩
  | some r =>
    dsimp only
    split_ifs with h1 h2
    · exact ⟨hown, hrow, hfk⟩
    · exact ⟨hown, hrow, hfk⟩
    · have hr2 : r = "owner" := by simpa using h1
      subst hr2
      obtain ⟨m0, hm0, hm0w, hm0u, hm0r⟩ := findMemberRole_some s wsId p "owner" hr
      refine ⟨?_, ?_, ?_⟩
      · intro w0
        show ownerCount ((s.members.map (fun m =>
          if m.workspaceId == wsId && m.userId == newOwner then { m with role := "owner" }
          else m)).map (fun m =>
            if m.workspaceId == wsId && m.userId == p then { m with role := "admin" }
            else m)) w0 ≤ 1
        rw [transferOwnership_members s p wsId newOwner]
        unfold ownerCount
        rw [List.countP_map]
        by_cases hw0 : w0 = wsId
        · subst hw0
          have himp : ∀ m ∈ s.members,
              ((fun m2 : Membership => m2.workspaceId == w0 && m2.role == "owner") ∘
                transferRoleMap w0 p newOwner) m = true →
              ((m.workspaceId == w0 && m.userId == newOwner) ||
                ((m.workspaceId == w0 && m.role == "owner") &&
                  !(m.workspaceId == w0 && m.userId == p))) = true := by
            intro m hm hp
            simp only [Function.comp] at hp
            by_cases hperf : (m.workspaceId == w0 && m.userId == p) = true
            · have hrole : (transferRoleMap w0 p newOwner m).role = "admin" := by
                unfold transferRoleMap
                rw [if_pos hperf]
              rw [Bool.and_eq_true, hrole] at hp
              exact absurd hp.2 (by decide)
            · by_cases hnew : (m.workspaceId == w0 && m.userId == newOwner) = true
              · rw [Bool.or_eq_true]
                exact Or.inl hnew
              · have hid : transferRoleMap w0 p newOwner m = m := by
                  unfold transferRoleMap
                  rw [if_neg hperf, if_neg hnew]
                rw [hid] at hp
                rw [Bool.or_eq_true]
                refine Or.inr ?_
                rw [Bool.and_eq_true]
                refine ⟨hp, ?_⟩
                have hpf : (m.workspaceId == w0 && m.userId == p) = false :=
                  Bool.eq_false_iff.mpr hperf
                rw [hpf]
                decide
          refine le_trans (List.countP_mono_left himp) ?_
          have hor : s.members.countP (fun m : Membership =>
              (m.workspaceId == w0 && m.userId == newOwner) ||
                ((m.workspaceId == w0 && m.role == "owner") &&
                  !(m.workspaceId == w0 && m.userId == p))) ≤
              s.members.countP (fun m : Membership =>
                m.workspaceId == w0 && m.userId == newOwner) +
              s.members.countP (fun m : Membership =>
                (m.workspaceId == w0 && m.role == "owner") &&
                  !(m.workspaceId == w0 && m.userId == p)) := countP_or_le _ _ _
          have hA : s.members.countP (fun m : Membership =>
              m.workspaceId == w0 && m.userId == newOwner) ≤ 1 := by
            have := hrow w0 newOwner
            unfold memberRowCount at this
            exact this
          have hsplit : s.members.countP (fun m : Membership =>
              m.workspaceId == w0 && m.role == "owner") =
              s.members.countP (fun m : Membership =>
                (m.workspaceId == w0 && m.role == "owner") &&
                  (m.workspaceId == w0 && m.userId == p)) +
              s.members.countP (fun m : Membership =>
                (m.workspaceId == w0 && m.role == "owner") &&
                  !(m.workspaceId == w0 && m.userId == p)) := countP_and_split _ _ _
          have hpos : 0 < s.members.countP (fun m : Membership =>
              (m.workspaceId == w0 && m.role == "owner") &&
                (m.workspaceId == w0 && m.userId == p)) := by
            rw [List.countP_pos_iff]
            refine ⟨m0, hm0, ?_⟩
            rw [hm0w, hm0u, hm0r]
            simp
          have hB : s.members.countP (fun m : Membership =>
              m.workspaceId == w0 && m.role == "owner") ≤ 1 := by
            have := hown w0
            unfold ownerCount at this
            exact this
          omega
        · have hcong : ∀ m ∈ s.members,
              ((fun m2 : Membership => m2.workspaceId == w0 && m2.role == "owner") ∘
                transferRoleMap wsId p newOwner) m =
              (fun m2 : Membership => m2.workspaceId == w0 && m2.role == "owner") m := by
            intro m _
            simp only [Function.comp]
            by_cases hws : (m.workspaceId == wsId) = true
            · have hze : (m.workspaceId == w0) = false := by
                rw [beq_iff_eq] at hws
                rw [beq_eq_false_iff_ne, hws]
                exact fun hh => hw0 hh.symm
              have hze2 : ((transferRoleMap wsId p newOwner m).workspaceId == w0)
                  = false := by
                rw [transferRoleMap_ws]
                exact hze
              rw [hze, hze2]
              simp
            · rw [transferRoleMap_id_of_ws wsId p newOwner m (Bool.eq_false_iff.mpr hws)]
          rw [countP_congr_eq hcong]
          exact hown w0
      · intro w0 u
        show memberRowCount ((s.members.map (fun m =>
          if m.workspaceId == wsId && m.userId == newOwner then { m with role := "owner" }
          else m)).map (fun m =>
            if m.workspaceId == wsId && m.userId == p then { m with role := "admin" }
            else m)) w0 u ≤ 1
        rw [transferOwnership_members s p wsId newOwner]
        unfold memberRowCount
        rw [List.countP_map]
        have hcong : ∀ m ∈ s.members,
            ((fun m2 : Membership => m2.workspaceId == w0 && m2.userId == u) ∘
              transferRoleMap wsId p newOwner) m =
            (fun m2 : Membership => m2.workspaceId == w0 && m2.userId == u) m := by
          intro m _
          simp only [Function.comp]
          rw [transferRoleMap_ws, transferRoleMap_user]
        rw [countP_congr_eq hcong]
        exact hrow w0 u
      · show membersFK (s.workspaces.map (fun w =>
          if w.id == wsId then { w with ownerId := newOwner } else w))
          ((s.members.map (fun m =>
            if m.workspaceId == wsId && m.userId == newOwner then { m with role := "owner" }
            else m)).map (fun m =>
              if m.workspaceId == wsId && m.userId == p then { m with role := "admin" }
              else m))
        rw [transferOwnership_members s p wsId newOwner]
        intro m hm
        rw [List.mem_map] at hm
        obtain ⟨m1, hm1, heq⟩ := hm
        obtain ⟨w2, hw2, hwid⟩ := hfk m1 hm1
        refine ⟨(if w2.id == wsId then { w2 with ownerId := newOwner } else w2), ?_, ?_⟩
        · rw [List.mem_map]
          exact ⟨w2, hw2, rfl⟩
        · rw [← heq, transferRoleMap_ws, ← hwid]
          by_cases hid : (w2.id == wsId) = true
          · rw [if_pos hid]
          · rw [if_neg hid]

/-- The membership invariants hold in every state reachable through the
modelled routes. -/
theorem reachable_memberInv (s : DBState) (h : Reachable s) :
    MemberInvL s.workspaces s.members := by
  induction h with
  | init =>
    refine ⟨fun wsId => Nat.zero_le 1, fun wsId u => Nat.zero_le 1, ?_⟩
    intro m hm
    simp [emptyDB] at hm
  | createWs s0 creator wsId _ ih => exact createWorkspace_inv s0 creator wsId ih
  | addMem s0 p wsId newUser role _ ih => exact addMember_inv s0 p wsId newUser role ih
  | updateMemRole s0 p wsId target newRole _ ih =>
    exact updateMemberRole_inv s0 p wsId target newRole ih
  | removeMem s0 p wsId target _ ih => exact removeMember_inv s0 p wsId target ih
  | transferOwn s0 p wsId newOwner _ ih => exact transferOwnership_inv s0 p wsId newOwner ih
  | createR s0 p w n rid codes ao _ ih =>
    have hk := createRole_keeps s0 p w n rid codes ao
    unfold MemberInvL ownerCount memberRowCount membersFK at ih ⊢
    rw [hk.1, hk.2.1]
    exact ih
  | updateR s0 p rid nm cs _ ih =>
    have hk := updateRole_keeps s0 p rid nm cs
    unfold MemberInvL ownerCount memberRowCount membersFK at ih ⊢
    rw [hk.1, hk.2.1]
    exact ih
  | deleteR s0 p rid _ ih =>
    have hk := deleteRole_keeps s0 p rid
    unfold MemberInvL ownerCount memberRowCount membersFK at ih ⊢
    rw [hk.1, hk.2.1]
    exact ih
  | assignR s0 p t w rid _ ih =>
    have hk := assignRole_keeps s0 p t w rid
    unfold MemberInvL ownerCount memberRowCount membersFK at ih ⊢
    rw [hk.1, hk.2.1]
    exact ih
  | setBP s0 p b u l _ ih =>
    have hk := setBoardPermission_keeps s0 p b u l
    unfold MemberInvL ownerCount memberRowCount membersFK at ih ⊢
    rw [hk.1, hk.2]
    exact ih
  | removeBP s0 b u _ ih =>
    have hk := removeBoardPermission_keeps s0 b u
    unfold MemberInvL ownerCount memberRowCount membersFK at ih ⊢
    rw [hk.1, hk.2]
    exact ih
  | addGM s0 g u _ ih =>
    have hk := addGroupMember_keeps s0 g u
    unfold MemberInvL ownerCount memberRowCount membersFK at ih ⊢
    rw [hk.1, hk.2.1]
    exact ih
  | removeGM s0 g u _ ih =>
    have hk := removeGroupMember_keeps s0 g u
    unfold MemberInvL ownerCount memberRowCount membersFK at ih ⊢
    rw [hk.1, hk.2.1]
    exact ih

theorem removeMember_owner_rejected (s : DBState) (p wsId target : String)
    (w : Workspace)
    (hw : (s.workspaces.filter (fun w2 => w2.id == wsId)).head? = some w)
    (hown : w.ownerId = target) :
    (removeMember s p wsId target).1 = s ∧ (removeMember s p wsId target).2 ≠ none := by
  unfold removeMember
  cases hr : findMemberRole s wsId p with
  | none => exact ⟨rfl, by simp⟩
  | some r =>
    dsimp only
    split_ifs with h1 h2
    · exact ⟨rfl, by simp⟩
    · rw [hw]
      dsimp only
      rw [if_pos (by rw [beq_iff_eq]; exact hown)]
      exact ⟨rfl, by simp⟩
    · rw [hw]
      dsimp only
      rw [if_pos (by rw [beq_iff_eq]; exact hown)]
      exact ⟨rfl, by simp⟩

theorem transferOwnership_effect (s : DBState) (p wsId newOwner : String)
    (hrole : findMemberRole s wsId p = some "owner")
    (hmem : (s.members.any (fun m => m.workspaceId == wsId && m.userId == newOwner))
      = true)
    (hne : newOwner ≠ p) :
    findMemberRole (transferOwnership s p wsId newOwner).1 wsId newOwner =
      some "owner" ∧
    findMemberRole (transferOwnership s p wsId newOwner).1 wsId p = some "admin" := by
  have hwsu : ∀ (x : String) (m : Membership), m ∈ s.members →
      ((fun m2 : Membership => m2.workspaceId == wsId && m2.userId == x) ∘
        transferRoleMap wsId p newOwner) m =
      (fun m2 : Membership => m2.workspaceId == wsId && m2.userId == x) m := by
    intro x m _
    simp only [Function.comp]
    rw [transferRoleMap_ws, transferRoleMap_user]
  have hshape : ∀ x : String,
      findMemberRole (transferOwnership s p wsId newOwner).1 wsId x =
      ((s.members.filter (fun m => m.workspaceId == wsId && m.userId == x)).head?.map
        (transferRoleMap wsId p newOwner)).map (fun m => m.role) := by
    intro x
    unfold transferOwnership
    rw [hrole]
    dsimp only
    rw [if_neg (by decide)]
    rw [if_neg (by intro hh; rw [hmem] at hh; simp at hh)]
    show (((((s.members.map (fun m =>
      if m.workspaceId == wsId && m.userId == newOwner then { m with role := "owner" }
      else m)).map (fun m =>
        if m.workspaceId == wsId && m.userId == p then { m with role := "admin" }
        else m)).filter (fun m => m.workspaceId == wsId && m.userId == x)).head?).map
          (fun m => m.role)) = _
    rw [transferOwnership_members s p wsId newOwner]
    rw [List.filter_map]
    rw [List.filter_congr (hwsu x)]
    rw [List.head?_map]
  constructor
  · rw [hshape newOwner]
    have hne2 : s.members.filter (fun m =>
        m.workspaceId == wsId && m.userId == newOwner) ≠ [] := by
      rw [List.any_eq_true] at hmem
      obtain ⟨m1, hm1, hk⟩ := hmem
      intro hnil
      have hmm : m1 ∈ s.members.filter (fun m =>
          m.workspaceId == wsId && m.userId == newOwner) :=
        List.mem_filter.mpr ⟨hm1, hk⟩
      rw [hnil] at hmm
      simp at hmm
    obtain ⟨m1, hm1⟩ := Option.isSome_iff_exists.mp (List.head?_isSome.mpr hne2)
    rw [hm1]
    have hm1f : m1 ∈ s.members.filter (fun m =>
        m.workspaceId == wsId && m.userId == newOwner) :=
      List.mem_of_mem_head? (by simp [hm1])
    rw [List.mem_filter, Bool.and_eq_true, beq_iff_eq, beq_iff_eq] at hm1f
    have hF : (transferRoleMap wsId p newOwner m1).role = "owner" := by
      unfold transferRoleMap
      have hc1 : (m1.workspaceId == wsId && m1.userId == p) = false := by
        rw [hm1f.2.2]
        have hx : (newOwner == p) = false := beq_eq_false_iff_ne.mpr hne
        rw [hx, Bool.and_false]
      have hc2 : (m1.workspaceId == wsId && m1.userId == newOwner) = true := by
        rw [hm1f.2.1, hm1f.2.2]
        simp
      rw [hc1]
      simp only [Bool.false_eq_true, if_false]
      rw [if_pos hc2]
    simp only [Option.map_some']
    rw [hF]
  · rw [hshape p]
    unfold findMemberRole at hrole
    cases hh : (s.members.filter (fun m =>
        m.workspaceId == wsId && m.userId == p)).head? with
    | none =>
      rw [hh] at hrole
      simp at hrole
    | some m0 =>
      rw [hh] at hrole
      simp only [Option.map_some', Option.some_inj] at hrole
      have hm0f : m0 ∈ s.members.filter (fun m =>
          m.workspaceId == wsId && m.userId == p) :=
        List.mem_of_mem_head? (by simp [hh])
      rw [List.mem_filter, Bool.and_eq_true, beq_iff_eq, beq_iff_eq] at hm0f
      have hF : (transferRoleMap wsId p newOwner m0).role = "admin" := by
        unfold transferRoleMap
        have hc1 : (m0.workspaceId == wsId && m0.userId == p) = true := by
          rw [hm0f.2.1, hm0f.2.2]
          simp
        rw [if_pos hc1]
      simp only [Option.map_some']
      rw [hF]

/-- C4 counterexample: transferring ownership of w1 to its current owner a is
accepted, and because the second role UPDATE (performer to admin) runs after
the first (new owner to owner), the reachable state ends with zero owner-role
members in w1 although the workspace still exists — not exactly one as
claimed. -/
theorem owner_uniqueness_fails_on_self_transfer_cex :
    Reachable (transferOwnership (createWorkspace emptyDB "a" "w1").1 "a" "w1" "a").1 ∧
    ((transferOwnership (createWorkspace emptyDB "a" "w1").1 "a" "w1"
        "a").1.workspaces.any (fun w => w.id == "w1")) = true ∧
    ownerCount
      (transferOwnership (createWorkspace emptyDB "a" "w1").1 "a" "w1" "a").1.members
      "w1" = 0 := by
  refine ⟨Reachable.transferOwn _ "a" "w1" "a"
    (Reachable.createWs _ "a" "w1" Reachable.init), ?_, ?_⟩
  · decide
  · decide

/-- C4 amended: in every reachable state at most one principal per workspace
holds the owner membership role (a transfer to the current owner themself can
leave a workspace with none); removing the principal recorded as the
workspace's owner_id is always rejected and changes nothing; and a transfer
to a different member makes that member's role owner and demotes the
performer to admin, atomically within the one modelled transition. -/
theorem member_owner_invariant :
    (∀ s : DBState, Reachable s → ∀ wsId, ownerCount s.members wsId ≤ 1) ∧
    (∀ (s : DBState) (p wsId target : String) (w : Workspace),
      (s.workspaces.filter (fun w2 => w2.id == wsId)).head? = some w →
      w.ownerId = target →
      (removeMember s p wsId target).1 = s ∧ (removeMember s p wsId target).2 ≠ none) ∧
    (∀ (s : DBState) (p wsId newOwner : String),
      findMemberRole s wsId p = some "owner" →
      (s.members.any (fun m => m.workspaceId == wsId && m.userId == newOwner)) = true →
      newOwner ≠ p →
      findMemberRole (transferOwnership s p wsId newOwner).1 wsId newOwner =
        some "owner" ∧
      findMemberRole (transferOwnership s p wsId newOwner).1 wsId p = some "admin") :=
  ⟨fun s h wsId => (reachable_memberInv s h).1 wsId,
    fun s p wsId target w hw hown => removeMember_owner_rejected s p wsId target w hw hown,
    fun s p wsId newOwner h1 h2 h3 => transferOwnership_effect s p wsId newOwner h1 h2 h3⟩

/-- A concrete two-member workspace for the ownership witness. -/
def transferState : DBState :=
  { emptyDB with
    workspaces := [⟨"w1", "a"⟩]
    members := [⟨"w1", "a", "owner"⟩, ⟨"w1", "b", "member"⟩] }

/-- Witness for the C4 theorem: the owner bound at the reachable empty state,
the rejected removal of owner a, and the effect of transferring w1 from a
to member b. -/
theorem member_owner_invariant_witness :
    ownerCount emptyDB.members "w1" ≤ 1 ∧
    ((removeMember transferState "a" "w1" "a").1 = transferState ∧
      (removeMember transferState "a" "w1" "a").2 ≠ none) ∧
    (findMemberRole (transferOwnership transferState "a" "w1" "b").1 "w1" "b" =
        some "owner" ∧
      findMemberRole (transferOwnership transferState "a" "w1" "b").1 "w1" "a" =
        some "admin") :=
  ⟨member_owner_invariant.1 emptyDB Reachable.init "w1",
    member_owner_invariant.2.1 transferState "a" "w1" "a" ⟨"w1", "a"⟩
      (by decide) (by decide),
    member_owner_invariant.2.2 transferState "a" "w1" "b"
      (by decide) (by decide) (by decide)⟩

end BGestion
